import Mathlib

/-!
Verification development for the streaming JPEG-to-BMP converter
(`JpegToBmpConverter.cpp`).  The integer image-processing pipeline is
embedded shallowly: C++ `int` arithmetic becomes `ℤ` (C++ `/` truncates
toward zero, hence `Int.tdiv`; C++ `>>` on signed values is an arithmetic
shift, hence `Int`'s `>>>`, which rounds toward `-∞`), unsigned machine
words become `ℕ` with explicit `% 2^w` where wrap-around is reachable,
and byte sinks become `List ℕ` accumulators.  The third-party picojpeg
decoder is not part of the repository; its two entry points are abstracted
as oracles (an init status and a stream of per-MCU decode results), which
is exactly the interface the converter consumes.
-/

/-! ### Compile-time configuration constants (lines 19-32 of the source) -/

def USE_ATKINSON : Bool := true

def USE_FLOYD_STEINBERG : Bool := false

def USE_NOISE_DITHERING : Bool := false

def USE_BRIGHTNESS : Bool := true

def BRIGHTNESS_BOOST : ℤ := 10

def GAMMA_CORRECTION : Bool := true

/-- `static_cast<int>(CONTRAST_FACTOR * 100)` with `CONTRAST_FACTOR = 1.15f`:
the binary32 nearest value to 1.15 is 1.14999997…, and the binary32 product
with 100 rounds to exactly 115.0, so the truncating cast yields 115. -/
def factorNum : ℤ := 115

def USE_PRESCALE : Bool := true

def TARGET_MAX_WIDTH : ℕ := 480

def TARGET_MAX_HEIGHT : ℕ := 800

/-! ### Tone mapping (lines 35-75) -/

/-- Integer gamma approximation (two Newton-Raphson steps for `sqrt(gray*255)`),
lines 37-49.  Both update statements sit inside the single `if (x > 0)` guard. -/
def applyGamma (gray : ℤ) : ℤ :=
  if !GAMMA_CORRECTION then gray else
  let product := gray * 255
  let x0 := gray
  let x1 := if x0 > 0 then (x0 + product.tdiv x0) >>> (1 : ℕ) else x0
  let x2 := if x0 > 0 then (x1 + product.tdiv x1) >>> (1 : ℕ) else x1
  if x2 > 255 then 255 else x2

/-- Contrast stretch around 128 with truncating integer division, lines 53-61. -/
def applyContrast (gray : ℤ) : ℤ :=
  let adjusted := ((gray - 128) * factorNum).tdiv 100 + 128
  let a1 := if adjusted < 0 then 0 else adjusted
  if a1 > 255 then 255 else a1

/-- Combined contrast, then brightness, then gamma, lines 64-75. -/
def adjustPixel (gray : ℤ) : ℤ :=
  if !USE_BRIGHTNESS then gray else
  let g1 := applyContrast gray
  let g2 := g1 + BRIGHTNESS_BOOST
  let g3 := if g2 > 255 then 255 else g2
  let g4 := if g3 < 0 then 0 else g3
  applyGamma g4

/-! ### Quantizers (lines 78-137).  The returned `uint8_t` is modelled as
`(· % 256).toNat` of the C++ `int` level. -/

/-- Lines 78-85. -/
def quantizeAdjustedSimple (gray levelCount : ℤ) : ℕ :=
  if levelCount ≤ 1 then 0 else
  let g1 := if gray < 0 then 0 else gray
  let g2 := if g1 > 255 then 255 else g1
  let level := (g2 * levelCount) >>> (8 : ℕ)
  let level2 := if level ≥ levelCount then levelCount - 1 else level
  (level2 % 256).toNat

/-- Lines 88-100: quantize and also return the reconstructed 0-255 value. -/
def quantizeAdjustedWithValue (gray levelCount : ℤ) : ℕ × ℤ :=
  if levelCount ≤ 1 then (0, 0) else
  let g1 := if gray < 0 then 0 else gray
  let g2 := if g1 > 255 then 255 else g1
  let level := (g2 * levelCount) >>> (8 : ℕ)
  let level2 := if level ≥ levelCount then levelCount - 1 else level
  let denom := levelCount - 1
  let quantizedValue := if denom > 0 then (level2 * 255).tdiv denom else 0
  ((level2 % 256).toNat, quantizedValue)

/-- Lines 103-106. -/
def quantizeSimple (gray levelCount : ℤ) : ℕ :=
  quantizeAdjustedSimple (adjustPixel gray) levelCount

/-- Hash-based noise dithering, lines 110-128.  The `uint32_t` hash arithmetic
wraps, hence the explicit `% 2^32`; `scaled & 0xFF` on a C++ `int` equals the
Euclidean `scaled % 256`. -/
def quantizeNoise (gray : ℤ) (x y : ℕ) (levelCount : ℤ) : ℕ :=
  if levelCount ≤ 1 then 0 else
  let g := adjustPixel gray
  let hash1 := (x * 374761393 + y * 668265263) % 2 ^ 32
  let hash2 := ((hash1 ^^^ (hash1 >>> 13)) * 1274126177) % 2 ^ 32
  let threshold : ℤ := ((hash2 >>> 24 : ℕ) : ℤ)
  let scaled := g * levelCount
  let level := scaled >>> (8 : ℕ)
  let level2 := if level ≥ levelCount then levelCount - 1 else level
  let remainder := scaled % 256
  let level3 := if level2 < levelCount - 1 ∧ remainder + threshold ≥ 256 then level2 + 1 else level2
  (level3 % 256).toNat

/-- Lines 131-137: config-selected quantization. -/
def quantize (gray : ℤ) (x y : ℕ) (levelCount : ℤ) : ℕ :=
  if USE_NOISE_DITHERING then quantizeNoise gray x y levelCount
  else quantizeSimple gray levelCount

/-! ### BMP encoding primitives (lines 301-343) -/

/-- Little-endian 16-bit emit, lines 301-304. -/
def write16 (value : ℕ) : List ℕ :=
  [value &&& 255, (value >>> 8) &&& 255]

/-- Little-endian 32-bit emit, lines 306-311. -/
def write32 (value : ℕ) : List ℕ :=
  [value &&& 255, (value >>> 8) &&& 255, (value >>> 16) &&& 255, (value >>> 24) &&& 255]

/-- Little-endian emit of a signed 32-bit value, lines 313-318: the four bytes
are those of the two's-complement image of the int32. -/
def write32Signed (value : ℤ) : List ℕ :=
  write32 ((value % (2 : ℤ) ^ 32).toNat)

/-- MSB-first packing of one palette index into the row buffer, lines 320-325.
The `static_cast<uint8_t>` of the shifted value is the `% 256`. -/
def writeIndexedPixel (rowBuffer : List ℕ) (x bitsPerPixel : ℕ) (value : ℕ) : List ℕ :=
  let bitPos := x * bitsPerPixel
  let byteIndex := bitPos >>> 3
  let bitOffset := 8 - bitsPerPixel - (bitPos &&& 7)
  rowBuffer.set byteIndex (rowBuffer.getD byteIndex 0 ||| (value <<< bitOffset) % 256)

/-- Complementary reader for the MSB-first packing convention of
`writeIndexedPixel`: the `bitsPerPixel`-wide field of pixel `x`. -/
def extractIndexedPixel (rowBuffer : List ℕ) (x bitsPerPixel : ℕ) : ℕ :=
  (rowBuffer.getD ((x * bitsPerPixel) >>> 3) 0 >>> (8 - bitsPerPixel - (x * bitsPerPixel &&& 7)))
    &&& (2 ^ bitsPerPixel - 1)

/-- Lines 327-334. -/
def getBytesPerRow (width bitsPerPixel : ℕ) : ℕ :=
  if bitsPerPixel = 8 then (width + 3) / 4 * 4
  else if bitsPerPixel = 2 then (width * 2 + 31) / 32 * 4
  else (width + 31) / 32 * 4

/-- Lines 336-343. -/
def getColorsUsed (bitsPerPixel : ℕ) : ℕ :=
  if bitsPerPixel = 8 then 256 else if bitsPerPixel = 2 then 4 else 2

/-- Palette block emitted by `writeBmpHeader`, lines 374-402. -/
def paletteBytes (bitsPerPixel : ℕ) : List ℕ :=
  if bitsPerPixel = 8 then (List.range 256).foldr (fun i acc => i :: i :: i :: 0 :: acc) []
  else if bitsPerPixel = 2 then
    [0, 0, 0, 0, 85, 85, 85, 0, 170, 170, 170, 0, 255, 255, 255, 0]
  else [0, 0, 0, 0, 255, 255, 255, 0]

/-- BMP file header + DIB header + palette, lines 346-403.  66 and 77 are the
byte values of the characters B and M. -/
def writeBmpHeader (width height bitsPerPixel : ℕ) : List ℕ :=
  let bytesPerRow := getBytesPerRow width bitsPerPixel
  let colorsUsed := getColorsUsed bitsPerPixel
  let paletteSize := colorsUsed * 4
  let imageSize := bytesPerRow * height
  let fileSize := 14 + 40 + paletteSize + imageSize
  [66, 77] ++ write32 fileSize ++ write32 0 ++ write32 (14 + 40 + paletteSize)
    ++ write32 40 ++ write32Signed (width : ℤ) ++ write32Signed (-(height : ℤ))
    ++ write16 1 ++ write16 bitsPerPixel ++ write32 0 ++ write32 imageSize
    ++ write32 2835 ++ write32 2835 ++ write32 colorsUsed ++ write32 colorsUsed
    ++ paletteBytes bitsPerPixel

/-- Little-endian 32-bit field read from a byte list at a given offset. -/
def decodeLE32 (l : List ℕ) (off : ℕ) : ℕ :=
  l.getD off 0 + 256 * l.getD (off + 1) 0 + 65536 * l.getD (off + 2) 0
    + 16777216 * l.getD (off + 3) 0

/-- Little-endian 16-bit field read from a byte list at a given offset. -/
def decodeLE16 (l : List ℕ) (off : ℕ) : ℕ :=
  l.getD off 0 + 256 * l.getD (off + 1) 0

/-! ### Error-diffusion ditherers (lines 139-299)

The `int16_t` error rows are embedded as total functions `ℕ → ℤ` indexed by
the C++ array offset.  The stored magnitudes cannot overflow an `int16_t`
(every cell accumulates at most six shares of an error bounded by 255), so
no `% 2^16` wrap is modelled.  `memset` becomes the constant-zero function. -/

/-- Point update of an error row: `row[i] += e`. -/
def addAt (f : ℕ → ℤ) (i : ℕ) (e : ℤ) : ℕ → ℤ :=
  fun j => if j = i then f j + e else f j

/-- Atkinson ditherer state, lines 145-206. -/
structure AtkinsonDitherer where
  width : ℕ
  levelCount : ℤ
  errorRow0 : ℕ → ℤ
  errorRow1 : ℕ → ℤ
  errorRow2 : ℕ → ℤ

/-- Constructor, lines 147-151: all three rows zero-initialised. -/
def AtkinsonDitherer.create (width : ℕ) (levelCount : ℤ) : AtkinsonDitherer :=
  ⟨width, levelCount, fun _ => 0, fun _ => 0, fun _ => 0⟩

/-- Lines 159-184: add carried error, clamp, quantize, distribute
`error = (adjusted - quantizedValue) >> 3` to the six Atkinson neighbours. -/
def AtkinsonDitherer.processPixel (d : AtkinsonDitherer) (gray : ℤ) (x : ℕ) :
    ℕ × AtkinsonDitherer :=
  let g := adjustPixel gray
  let a0 := g + d.errorRow0 (x + 2)
  let a1 := if a0 < 0 then 0 else a0
  let adjusted := if a1 > 255 then 255 else a1
  let q := quantizeAdjustedWithValue adjusted d.levelCount
  let error := (adjusted - q.2) >>> (3 : ℕ)
  (q.1,
    { d with
      errorRow0 := addAt (addAt d.errorRow0 (x + 3) error) (x + 4) error
      errorRow1 := addAt (addAt (addAt d.errorRow1 (x + 1) error) (x + 2) error) (x + 3) error
      errorRow2 := addAt d.errorRow2 (x + 2) error })

/-- Lines 186-192: rotate the three rows and clear the newly exposed one. -/
def AtkinsonDitherer.nextRow (d : AtkinsonDitherer) : AtkinsonDitherer :=
  { d with errorRow0 := d.errorRow1, errorRow1 := d.errorRow2, errorRow2 := fun _ => 0 }

/-- Floyd-Steinberg ditherer state, lines 216-299. -/
structure FloydSteinbergDitherer where
  width : ℕ
  levelCount : ℤ
  rowCount : ℕ
  errorCurRow : ℕ → ℤ
  errorNextRow : ℕ → ℤ

/-- Constructor, lines 218-221. -/
def FloydSteinbergDitherer.create (width : ℕ) (levelCount : ℤ) : FloydSteinbergDitherer :=
  ⟨width, levelCount, 0, fun _ => 0, fun _ => 0⟩

/-- Lines 230-270: add carried error, clamp, quantize, distribute the error
with weights 7/16 ahead and 3/16, 5/16, 1/16 on the next row, the weights
mirrored when `reverseDirection` is set. -/
def FloydSteinbergDitherer.processPixel (d : FloydSteinbergDitherer) (gray : ℤ) (x : ℕ)
    (reverseDirection : Bool) : ℕ × FloydSteinbergDitherer :=
  let g := adjustPixel gray
  let a0 := g + d.errorCurRow (x + 1)
  let a1 := if a0 < 0 then 0 else a0
  let adjusted := if a1 > 255 then 255 else a1
  let q := quantizeAdjustedWithValue adjusted d.levelCount
  let error := adjusted - q.2
  if !reverseDirection then
    (q.1,
      { d with
        errorCurRow := addAt d.errorCurRow (x + 2) ((error * 7) >>> (4 : ℕ))
        errorNextRow :=
          addAt (addAt (addAt d.errorNextRow x ((error * 3) >>> (4 : ℕ))) (x + 1) ((error * 5) >>> (4 : ℕ)))
            (x + 2) (error >>> (4 : ℕ)) })
  else
    (q.1,
      { d with
        errorCurRow := addAt d.errorCurRow x ((error * 7) >>> (4 : ℕ))
        errorNextRow :=
          addAt (addAt (addAt d.errorNextRow (x + 2) ((error * 3) >>> (4 : ℕ))) (x + 1) ((error * 5) >>> (4 : ℕ)))
            x (error >>> (4 : ℕ)) })

/-- Lines 273-281: swap the two rows, clear the new next row, bump parity. -/
def FloydSteinbergDitherer.nextRow (d : FloydSteinbergDitherer) : FloydSteinbergDitherer :=
  { d with
    errorCurRow := d.errorNextRow
    errorNextRow := fun _ => 0
    rowCount := d.rowCount + 1 }

/-- Line 284. -/
def FloydSteinbergDitherer.isReverseRow (d : FloydSteinbergDitherer) : Bool :=
  d.rowCount &&& 1 != 0

/-- The conversion's inner pixel loop in the Floyd-Steinberg configuration
(lines 636-651 and 697-712): the loop index `x` runs 0,1,…,width-1 in
ASCENDING order on every row; only the flag passed to `processPixel`
depends on the row parity.  Returns the quantized indices in pixel order
together with the final ditherer state. -/
def fsProcessRowCode (d : FloydSteinbergDitherer) (grays : List ℤ) :
    List ℕ × FloydSteinbergDitherer :=
  let step := fun (acc : List ℕ × FloydSteinbergDitherer) (x : ℕ) =>
    let r := acc.2.processPixel (grays.getD x 0) x (acc.2.isReverseRow)
    (acc.1 ++ [r.1], r.2)
  (List.range grays.length).foldl step ([], d)

/-- Modelled from the spec: the serpentine traversal the spec (and the class
comments at lines 208-215) describe, which the repository's call sites do not
implement.  On a reverse row the pixels are visited right-to-left, so the
mirrored 7/16 "ahead" weight lands on the yet-unprocessed left neighbour;
outputs are still reported in logical pixel order. -/
def fsProcessRowSerpentine (d : FloydSteinbergDitherer) (grays : List ℤ) :
    List ℕ × FloydSteinbergDitherer :=
  let idxs := if d.isReverseRow then (List.range grays.length).reverse
              else List.range grays.length
  let step := fun (acc : (ℕ → ℕ) × FloydSteinbergDitherer) (x : ℕ) =>
    let r := acc.2.processPixel (grays.getD x 0) x (acc.2.isReverseRow)
    (fun j => if j = x then r.1 else acc.1 j, r.2)
  let res := idxs.foldl step (fun _ => 0, d)
  ((List.range grays.length).map res.1, res.2)

/-! ### Stream adapter (lines 9-14 and 406-435) -/

/-- Value of the picojpeg enum constant; only its non-zeroness matters. -/
def PJPG_STREAM_READ_ERROR : ℕ := 27

/-- The underlying file handle: validity flag plus remaining bytes. -/
structure FileModel where
  valid : Bool
  data : List ℕ

/-- `File::read(buf, n)`: up to `n` bytes from the front of the stream. -/
def FileModel.read (f : FileModel) (n : ℕ) : List ℕ × FileModel :=
  (f.data.take n, { f with data := f.data.drop n })

/-- Lines 9-14: the callback context.  The fixed 512-byte array is modelled by
the list of bytes most recently read; only indices below `bufferFilled` are
ever consumed, so the partial overwrite of the C array is immaterial. -/
structure JpegReadContext where
  file : FileModel
  buffer : List ℕ
  bufferPos : ℕ
  bufferFilled : ℕ

/-- Common tail of the callback (lines 426-434): copy up to `bufSize` bytes
out of the context buffer. -/
def jpegReadCopy (ctx : JpegReadContext) (bufSize : ℕ) :
    ℕ × ℕ × List ℕ × JpegReadContext :=
  let available := ctx.bufferFilled - ctx.bufferPos
  let toRead := min available bufSize
  (0, toRead, (ctx.buffer.drop ctx.bufferPos).take toRead,
    { ctx with bufferPos := ctx.bufferPos + toRead })

/-- Lines 406-435: returns `(status, bytesActuallyRead, bytes, context')`.
The null-context guard is subsumed by the validity flag. -/
def jpegReadCallback (ctx : JpegReadContext) (bufSize : ℕ) :
    ℕ × ℕ × List ℕ × JpegReadContext :=
  if !ctx.file.valid then (PJPG_STREAM_READ_ERROR, 0, [], ctx)
  else if ctx.bufferPos ≥ ctx.bufferFilled then
    let r := ctx.file.read 512
    let ctx' := { ctx with file := r.2, buffer := r.1, bufferPos := 0, bufferFilled := r.1.length }
    if ctx'.bufferFilled = 0 then (0, 0, [], ctx')
    else jpegReadCopy ctx' bufSize
  else jpegReadCopy ctx bufSize

/-! ### The conversion `jpegFileToBmpStream` (lines 438-747)

picojpeg is abstracted by an init status plus a stream of per-MCU decode
results; the float pre-scale computation (lines 486-491) is abstracted by the
pair `(preW, preH)` it produces, everything downstream of it (the `< 1`
clamps, the 16.16 fixed-point factors, the whole row pipeline) is exact
integer code and embedded faithfully.  Heap discipline is tracked by a ledger
of allocation tags: `malloc`/`new` pushes a tag, `free`/`delete` erases it. -/

/-- Decoder-supplied image descriptor (`pjpeg_image_info_t` fields used). -/
structure ImageInfo where
  m_width : ℕ
  m_height : ℕ
  m_comps : ℕ
  m_MCUSPerRow : ℕ
  m_MCUSPerCol : ℕ
  m_MCUWidth : ℕ
  m_MCUHeight : ℕ

/-- Result of one `pjpeg_decode_mcu` call: its status and the contents of the
`m_pMCUBufR/G/B` planes after the call (uint8 arrays, masked on read). -/
structure MCUDecode where
  status : ℕ
  r : ℕ → ℕ
  g : ℕ → ℕ
  b : ℕ → ℕ

/-- Heap allocations made by the conversion. -/
inductive AllocTag where
  | rowBuffer
  | mcuRowBuffer
  | atkinsonDitherer
  | fsDitherer
  | rowAccum
  | rowCnt
deriving DecidableEq

/-- Grayscale of one sample, lines 604-612: plane value for 1-component
images, integer-weighted 25/50/25 for colour. -/
def mcuGray (comps : ℕ) (d : MCUDecode) (pixelOffset : ℕ) : ℕ :=
  if comps = 1 then d.r pixelOffset % 256
  else
    let r := d.r pixelOffset % 256
    let g := d.g pixelOffset % 256
    let b := d.b pixelOffset % 256
    (r * 25 + g * 50 + b * 25) / 100

/-- Copy one decoded MCU into the MCU row buffer, lines 590-616: the
block-interleaved picojpeg offset scheme, skipping pixels past the image
width. -/
def writeMcuToBuf (info : ImageInfo) (d : MCUDecode) (mcuX : ℕ) (buf : ℕ → ℕ) : ℕ → ℕ :=
  (List.range info.m_MCUHeight).foldl (fun bY blockY =>
    (List.range info.m_MCUWidth).foldl (fun b2 blockX =>
      let pixelX := mcuX * info.m_MCUWidth + blockX
      if pixelX < info.m_width then
        let blockCol := blockX / 8
        let blockRow := blockY / 8
        let localX := blockX % 8
        let localY := blockY % 8
        let blocksPerRow := info.m_MCUWidth / 8
        let blockIndex := blockRow * blocksPerRow + blockCol
        let pixelOffset := blockIndex * 64 + localY * 8 + localX
        fun i => if i = blockY * info.m_width + pixelX then mcuGray info.m_comps d pixelOffset
                 else b2 i
      else b2) bY) buf

/-- One MCU row of decodes (the `mcuX` loop, lines 571-617): `none` when some
`pjpeg_decode_mcu` in the row fails, otherwise the filled row buffer.  The
buffer starts from the `memset` of line 571. -/
def decodeMcuRow (info : ImageInfo) (mcus : ℕ → MCUDecode) (mcuY : ℕ) : Option (ℕ → ℕ) :=
  (List.range info.m_MCUSPerRow).foldl (fun acc mcuX =>
    match acc with
    | none => none
    | some buf =>
      let d := mcus (mcuY * info.m_MCUSPerRow + mcuX)
      if d.status ≠ 0 then none else some (writeMcuToBuf info d mcuX buf))
    (some fun _ => 0)

/-- The conversion's per-call ditherer choice, lines 542-550. -/
inductive DitherState where
  | atk : AtkinsonDitherer → DitherState
  | fs : FloydSteinbergDitherer → DitherState
  | plain : DitherState

/-- Per-pixel dispatch, the if/else chains at lines 639-645 and 700-706. -/
def ditherPixel (ds : DitherState) (levelCount : ℤ) (gray : ℤ) (x y : ℕ) : ℕ × DitherState :=
  match ds with
  | .atk d => let r := d.processPixel gray x; (r.1, .atk r.2)
  | .fs d => let r := d.processPixel gray x d.isReverseRow; (r.1, .fs r.2)
  | .plain => (quantize gray x y levelCount, .plain)

/-- Row advance for whichever ditherer is active, lines 648-651 / 709-712. -/
def ditherAdvanceRow (ds : DitherState) : DitherState :=
  match ds with
  | .atk d => .atk d.nextRow
  | .fs d => .fs d.nextRow
  | .plain => .plain

/-- Parameters fixed for the whole MCU loop. -/
structure ConvParams where
  srcW : ℕ
  srcH : ℕ
  mcuH : ℕ
  outW : ℕ
  outH : ℕ
  bpp : ℕ
  bytesPerRow : ℕ
  levelCount : ℤ
  indexed : Bool
  needsScaling : Bool
  scaleX : ℕ
  scaleY : ℕ

/-- Mutable state of the MCU loop: bytes written so far, ditherer state,
per-column accumulator and count arrays, and the output-row bookkeeping of
lines 555-564. -/
structure LoopState where
  out : List ℕ
  ds : DitherState
  accum : ℕ → ℕ
  cnt : ℕ → ℕ
  currentOutY : ℕ
  nextBoundary : ℕ

/-- Pack one output row from per-pixel gray values, lines 628-652 (direct
path) and 689-713 (flush path): zeroed row buffer, then either raw adjusted
bytes (8-bit) or dithered indices packed MSB-first. -/
def buildRow (P : ConvParams) (ds : DitherState) (grayAt : ℕ → ℕ) (yForNoise : ℕ) :
    List ℕ × DitherState :=
  if P.indexed then
    let r := (List.range P.outW).foldl
      (fun (acc : List ℕ × DitherState) x =>
        let q := ditherPixel acc.2 P.levelCount ((grayAt x : ℕ) : ℤ) x yForNoise
        (writeIndexedPixel acc.1 x P.bpp q.1, q.2))
      (List.replicate P.bytesPerRow 0, ds)
    (r.1, ditherAdvanceRow r.2)
  else
    ((List.range P.outW).foldl
      (fun row x => row.set x ((adjustPixel ((grayAt x : ℕ) : ℤ)) % 256).toNat)
      (List.replicate P.bytesPerRow 0), ds)

/-- Horizontal accumulation of one source row into the per-column sums,
lines 660-681, including the empty-range nearest-sample fallback.  `accum`
is a `uint32_t` array and `cnt` a `uint16_t` array, hence the wraps. -/
def accumulateSrcRow (P : ConvParams) (srcRow : ℕ → ℕ) (accum cnt : ℕ → ℕ) :
    (ℕ → ℕ) × (ℕ → ℕ) :=
  (List.range P.outW).foldl (fun (ac : (ℕ → ℕ) × (ℕ → ℕ)) outX =>
    let srcXStart := (outX * P.scaleX) >>> 16
    let srcXEnd := ((outX + 1) * P.scaleX) >>> 16
    let hi := min srcXEnd P.srcW
    let idxs := List.range' srcXStart (hi - srcXStart)
    let sum := (idxs.map srcRow).sum
    let count := idxs.length
    let sum2 := if count = 0 ∧ srcXStart < P.srcW then srcRow srcXStart else sum
    let count2 := if count = 0 ∧ srcXStart < P.srcW then 1 else count
    (fun j => if j = outX then (ac.1 j + sum2) % 2 ^ 32 else ac.1 j,
     fun j => if j = outX then (ac.2 j + count2) % 2 ^ 16 else ac.2 j))
    (accum, cnt)

/-- Process one source row `y` of the current MCU row, lines 623-726. -/
def processSrcRow (P : ConvParams) (mcuBuf : ℕ → ℕ) (startRow y : ℕ) (s : LoopState) :
    LoopState :=
  let bufferY := y - startRow
  if !P.needsScaling then
    let r := buildRow P s.ds (fun x => mcuBuf (bufferY * P.srcW + x)) y
    { s with out := s.out ++ r.1, ds := r.2 }
  else
    let ac := accumulateSrcRow P (fun i => mcuBuf (bufferY * P.srcW + i)) s.accum s.cnt
    let srcY_fp := (y + 1) <<< 16
    if srcY_fp ≥ s.nextBoundary ∧ s.currentOutY < P.outH then
      let grayAt := fun x => if ac.2 x > 0 then ac.1 x / ac.2 x % 256 else 0
      let r := buildRow P s.ds grayAt s.currentOutY
      { out := s.out ++ r.1
        ds := r.2
        accum := fun _ => 0
        cnt := fun _ => 0
        currentOutY := s.currentOutY + 1
        nextBoundary := (s.currentOutY + 1 + 1) * P.scaleY }
    else
      { s with accum := ac.1, cnt := ac.2 }

/-- One iteration of the outer MCU-row loop, lines 569-727: decode a full row
of MCUs (an error escapes with the state as it stood), then feed the covered
source rows through `processSrcRow`. -/
def stepMcuY (P : ConvParams) (info : ImageInfo) (mcus : ℕ → MCUDecode) (mcuY : ℕ)
    (s : LoopState) : Except LoopState LoopState :=
  match decodeMcuRow info mcus mcuY with
  | none => .error s
  | some buf =>
    let startRow := mcuY * P.mcuH
    let endRow := (mcuY + 1) * P.mcuH
    .ok ((List.range' startRow (min endRow P.srcH - startRow)).foldl
      (fun st y => processSrcRow P buf startRow y st) s)

/-- The whole MCU loop. -/
def runMcuLoop (P : ConvParams) (info : ImageInfo) (mcus : ℕ → MCUDecode)
    (s0 : LoopState) : Except LoopState LoopState :=
  (List.range info.m_MCUSPerCol).foldl
    (fun acc mcuY => acc >>= stepMcuY P info mcus mcuY) (.ok s0)

/-- Outcome of a conversion: the returned flag, every byte written to the
sink, and the heap allocations never released. -/
structure ConvResult where
  ok : Bool
  out : List ℕ
  live : List AllocTag

/-- The scaling decision of line 484. -/
def needsScaling (w h targetWidth targetHeight : ℕ) : Bool :=
  USE_PRESCALE && (decide (w > targetWidth) || decide (h > targetHeight))

/-- Output dimensions, lines 477-495: the float scale computation is
abstracted by its result `(preW, preH)`; the `< 1` clamps are lines 494-495. -/
def outputDims (w h preW preH targetWidth targetHeight : ℕ) : ℕ × ℕ :=
  if needsScaling w h targetWidth targetHeight then
    (if preW < 1 then 1 else preW, if preH < 1 then 1 else preH)
  else (w, h)

/-- The per-call ditherer selection, lines 542-550. -/
def convDitherInit (outW : ℕ) (levelCount : ℤ) (indexedOutput : Bool) : DitherState :=
  if indexedOutput then
    (if USE_ATKINSON then DitherState.atk (AtkinsonDitherer.create outW levelCount)
     else if USE_FLOYD_STEINBERG then
       DitherState.fs (FloydSteinbergDitherer.create outW levelCount)
     else DitherState.plain)
  else DitherState.plain

/-- Allocation ledger once the MCU loop is entered: the two `malloc` buffers,
the `new`-allocated ditherer (ledger order = allocation order, lines 514-564),
and the scaling arrays when prescaling is active. -/
def convLive0 (indexedOutput scaling : Bool) : List AllocTag :=
  [AllocTag.rowBuffer, AllocTag.mcuRowBuffer]
    ++ (if indexedOutput then
          (if USE_ATKINSON then [AllocTag.atkinsonDitherer]
           else if USE_FLOYD_STEINBERG then [AllocTag.fsDitherer] else [])
        else [])
    ++ (if scaling then [AllocTag.rowAccum, AllocTag.rowCnt] else [])

/-- The conversion parameters fixed before the MCU loop, lines 477-511. -/
def convParams (info : ImageInfo) (preW preH bpp targetWidth targetHeight : ℕ) : ConvParams :=
  let scaling := needsScaling info.m_width info.m_height targetWidth targetHeight
  let od := outputDims info.m_width info.m_height preW preH targetWidth targetHeight
  { srcW := info.m_width
    srcH := info.m_height
    mcuH := info.m_MCUHeight
    outW := od.1
    outH := od.2
    bpp := bpp
    bytesPerRow := getBytesPerRow od.1 bpp
    levelCount := 1 <<< bpp
    indexed := bpp ≠ 8
    needsScaling := scaling
    scaleX := if scaling then info.m_width <<< 16 / od.1 else 65536
    scaleY := if scaling then info.m_height <<< 16 / od.2 else 65536 }

/-- The loop state as it stands after the header write and the allocations,
lines 508-564: the header already in the sink, zeroed accumulators, and the
first output-row boundary at `scaleY_fp`. -/
def convInit (info : ImageInfo) (preW preH bpp targetWidth targetHeight : ℕ) : LoopState :=
  let P := convParams info preW preH bpp targetWidth targetHeight
  { out := writeBmpHeader P.outW P.outH bpp
    ds := convDitherInit P.outW P.levelCount P.indexed
    accum := fun _ => 0
    cnt := fun _ => 0
    currentOutY := 0
    nextBoundary := if P.needsScaling then P.scaleY else 0 }

/-- `jpegFileToBmpStream` (lines 443-747).  `initStatus` is the
`pjpeg_decode_init` result, `mcus` the per-call `pjpeg_decode_mcu` oracle in
raster order, `(preW, preH)` the abstracted float pre-scale result, and the
two booleans the outcomes of the two `malloc` calls. -/
def jpegFileToBmpStream (info : ImageInfo) (initStatus : ℕ) (mcus : ℕ → MCUDecode)
    (preW preH : ℕ) (allocRowBufferOk allocMcuRowBufferOk : Bool)
    (bitsPerPixel targetWidth targetHeight : ℕ) : ConvResult :=
  if ¬(bitsPerPixel = 1 ∨ bitsPerPixel = 2 ∨ bitsPerPixel = 8) then ⟨false, [], []⟩
  else if initStatus ≠ 0 then ⟨false, [], []⟩
  else if info.m_width > 2048 ∨ info.m_height > 3072 then ⟨false, [], []⟩
  else
    let P := convParams info preW preH bitsPerPixel targetWidth targetHeight
    let header := writeBmpHeader P.outW P.outH bitsPerPixel
    if !allocRowBufferOk then ⟨false, header, []⟩
    else if info.m_width * info.m_MCUHeight > 65536 then ⟨false, header, []⟩
    else if !allocMcuRowBufferOk then ⟨false, header, []⟩
    else
      let live0 := convLive0 P.indexed P.needsScaling
      match runMcuLoop P info mcus (convInit info preW preH bitsPerPixel targetWidth targetHeight) with
      | .error s =>
        ⟨false, s.out, (live0.erase .mcuRowBuffer).erase .rowBuffer⟩
      | .ok s =>
        ⟨true, s.out,
          (((((live0.erase .rowAccum).erase .rowCnt).erase .atkinsonDitherer).erase
            .fsDitherer).erase .mcuRowBuffer).erase .rowBuffer⟩

/-! ## Claim theorems -/

/-- C8: for width 480 the row byte width is 120 at depth 2, 60 at depth 1 and
480 at depth 8; in general, for every supported depth, `getBytesPerRow` is the
least 4-byte-aligned byte count whose bit capacity covers `width * bpp` bits —
i.e. `ceil(w/4)*4`, `ceil(w*2/32)*4`, `ceil(w/32)*4` for 8, 2, 1 bpp. -/
theorem C8_row_byte_width (w bpp : ℕ) (hbpp : bpp = 1 ∨ bpp = 2 ∨ bpp = 8) :
    getBytesPerRow 480 2 = 120 ∧ getBytesPerRow 480 1 = 60 ∧ getBytesPerRow 480 8 = 480 ∧
    4 ∣ getBytesPerRow w bpp ∧ w * bpp ≤ 8 * getBytesPerRow w bpp ∧
    ∀ m : ℕ, 4 ∣ m → w * bpp ≤ 8 * m → getBytesPerRow w bpp ≤ m := by
  refine ⟨by decide, by decide, by decide, ?_, ?_, ?_⟩ <;>
      rcases hbpp with h | h | h <;> subst h <;> norm_num [getBytesPerRow] <;>
    first
      | omega
      | (intro m hm h2; omega)

theorem C8_row_byte_width_witness :
    ((2 : ℕ) = 1 ∨ (2 : ℕ) = 2 ∨ (2 : ℕ) = 8) ∧
      (getBytesPerRow 480 2 = 120 ∧ getBytesPerRow 480 1 = 60 ∧ getBytesPerRow 480 8 = 480 ∧
       4 ∣ getBytesPerRow 480 2 ∧ 480 * 2 ≤ 8 * getBytesPerRow 480 2 ∧
       ∀ m : ℕ, 4 ∣ m → 480 * 2 ≤ 8 * m → getBytesPerRow 480 2 ≤ m) :=
  ⟨by decide, C8_row_byte_width 480 2 (by decide)⟩

/-- C7 counterexample: the row byte width for a 300-pixel-wide row at depth 2
is 76, not the 40 the claim states (`ceil(300*2/32)*4 = 19*4 = 76`). -/
theorem C7_counterexample : getBytesPerRow 300 2 = 76 ∧ ¬ getBytesPerRow 300 2 = 40 := by
  decide

/-- C7 (amended): sources within the target bounding box are never scaled and
keep their dimensions; for the 300x450 depth-2 scenario the BMP header
declares width 300, height stored as -450 (the two's-complement field value
`2^32 - 450`), bitsPerPixel 2 and the 4-entry palette {0,85,170,255}, and the
row byte width is 76 (not 40). -/
theorem C7_no_scaling_header :
    (∀ w h tW tH : ℕ, w ≤ tW → h ≤ tH → needsScaling w h tW tH = false) ∧
    (∀ preW preH : ℕ, outputDims 300 450 preW preH 480 800 = (300, 450)) ∧
    decodeLE32 (writeBmpHeader 300 450 2) 18 = 300 ∧
    decodeLE32 (writeBmpHeader 300 450 2) 22 = 2 ^ 32 - 450 ∧
    decodeLE16 (writeBmpHeader 300 450 2) 28 = 2 ∧
    getBytesPerRow 300 2 = 76 ∧
    ((writeBmpHeader 300 450 2).drop 54).take 16 =
      [0, 0, 0, 0, 85, 85, 85, 0, 170, 170, 170, 0, 255, 255, 255, 0] := by
  refine ⟨?_, ?_, by decide, by decide, by decide, by decide, by decide⟩
  · intro w h tW tH hw hh
    simp only [needsScaling, USE_PRESCALE, Bool.true_and, Bool.or_eq_false_iff,
      decide_eq_false_iff_not]
    omega
  · intro preW preH
    simp only [outputDims]
    rw [show needsScaling 300 450 480 800 = false from by decide]
    simp

/-! ### Helper lemmas -/

theorem addAt_self (f : ℕ → ℤ) (i : ℕ) (e : ℤ) : addAt f i e i = f i + e := by
  simp [addAt]

theorem addAt_ne (f : ℕ → ℤ) (i : ℕ) (e : ℤ) {j : ℕ} (h : j ≠ i) : addAt f i e j = f j := by
  simp [addAt, h]

/-- For an already-clamped input and at least two levels, the reconstructed
value returned by `quantizeAdjustedWithValue` is `level * 255 / (levelCount-1)`
with `level` the clamped `(gray * levelCount) >> 8`. -/
theorem quantizeAdjustedWithValue_snd (gray lc : ℤ) (hlc : 2 ≤ lc) (h0 : 0 ≤ gray)
    (h255 : gray ≤ 255) :
    (quantizeAdjustedWithValue gray lc).2 =
      ((if (gray * lc) >>> (8 : ℕ) ≥ lc then lc - 1 else (gray * lc) >>> (8 : ℕ)) * 255).tdiv (lc - 1) := by
  simp only [quantizeAdjustedWithValue, if_neg (show ¬ lc ≤ 1 by omega),
    if_neg (show ¬ gray < 0 by omega), if_neg (show ¬ gray > 255 by omega),
    if_pos (show lc - 1 > 0 by omega)]

theorem quantize_level_lt_aux (g2 lc : ℤ) (h1 : ¬ lc ≤ 1) (h256 : lc ≤ 256) (hg2 : 0 ≤ g2) :
    (((if (g2 * lc) >>> (8 : ℕ) ≥ lc then lc - 1 else (g2 * lc) >>> (8 : ℕ)) % 256).toNat : ℤ) < lc := by
  have ht : 0 ≤ (g2 * lc) >>> (8 : ℕ) := by
    rw [Int.shiftRight_eq_div_pow]
    exact Int.ediv_nonneg (mul_nonneg hg2 (by omega)) (by positivity)
  generalize (g2 * lc) >>> (8 : ℕ) = t at ht ⊢
  split <;> omega

/-- The level index returned by `quantizeAdjustedWithValue` is below the level
count. -/
theorem quantizeAdjustedWithValue_fst_lt (gray lc : ℤ) (h1 : 1 ≤ lc) (h256 : lc ≤ 256) :
    ((quantizeAdjustedWithValue gray lc).1 : ℤ) < lc := by
  simp only [quantizeAdjustedWithValue]
  split
  · simp only [Int.toNat_zero, Nat.cast_zero]
    omega
  · dsimp only
    apply quantize_level_lt_aux _ _ (by assumption) h256
    split
    · norm_num
    · split <;> omega

/-- C6: for every pixel the Atkinson ditherer computes
`error = (adjusted - reconstructed) >> 3` — `adjusted` being the tone-mapped
gray plus the carried current-row error clamped to [0,255] and
`reconstructed = level * 255 / (levelCount - 1)` — and adds exactly that
amount to each of the six fixed neighbours (right, right+1, below-left,
below, below-right, two rows below), leaving every other cell untouched; the
total distributed is `6 * error`, i.e. 6/8 of the quantization error
(exactly so whenever the error is a multiple of 8, the remaining 2/8 being
discarded by the shift). -/
theorem C6_atkinson_error_distribution (d : AtkinsonDitherer) (gray : ℤ) (x : ℕ)
    (hlc : 2 ≤ d.levelCount) :
    let g := adjustPixel gray
    let a0 := g + d.errorRow0 (x + 2)
    let a1 := if a0 < 0 then 0 else a0
    let adjusted := if a1 > 255 then 255 else a1
    let levelRaw := (adjusted * d.levelCount) >>> (8 : ℕ)
    let level := if levelRaw ≥ d.levelCount then d.levelCount - 1 else levelRaw
    let reconstructed := (level * 255).tdiv (d.levelCount - 1)
    let error := (adjusted - reconstructed) >>> (3 : ℕ)
    let d' := (d.processPixel gray x).2
    d'.errorRow0 (x + 3) = d.errorRow0 (x + 3) + error ∧
    d'.errorRow0 (x + 4) = d.errorRow0 (x + 4) + error ∧
    d'.errorRow1 (x + 1) = d.errorRow1 (x + 1) + error ∧
    d'.errorRow1 (x + 2) = d.errorRow1 (x + 2) + error ∧
    d'.errorRow1 (x + 3) = d.errorRow1 (x + 3) + error ∧
    d'.errorRow2 (x + 2) = d.errorRow2 (x + 2) + error ∧
    (∀ j, j ≠ x + 3 → j ≠ x + 4 → d'.errorRow0 j = d.errorRow0 j) ∧
    (∀ j, j ≠ x + 1 → j ≠ x + 2 → j ≠ x + 3 → d'.errorRow1 j = d.errorRow1 j) ∧
    (∀ j, j ≠ x + 2 → d'.errorRow2 j = d.errorRow2 j) ∧
    (d'.errorRow0 (x + 3) + d'.errorRow0 (x + 4) + d'.errorRow1 (x + 1) + d'.errorRow1 (x + 2)
        + d'.errorRow1 (x + 3) + d'.errorRow2 (x + 2))
      - (d.errorRow0 (x + 3) + d.errorRow0 (x + 4) + d.errorRow1 (x + 1) + d.errorRow1 (x + 2)
        + d.errorRow1 (x + 3) + d.errorRow2 (x + 2)) = 6 * error ∧
    (8 ∣ adjusted - reconstructed → 8 * (6 * error) = 6 * (adjusted - reconstructed)) := by
  intro g a0 a1 adjusted levelRaw level reconstructed error d'
  have hadj0 : 0 ≤ adjusted := by
    show (0 : ℤ) ≤ if a1 > 255 then 255 else a1
    have : (0 : ℤ) ≤ a1 := by
      show (0 : ℤ) ≤ if a0 < 0 then 0 else a0
      split <;> omega
    split <;> omega
  have hadj255 : adjusted ≤ 255 := by
    show (if a1 > 255 then 255 else a1) ≤ 255
    split <;> omega
  have hq : (quantizeAdjustedWithValue adjusted d.levelCount).2 = reconstructed := by
    rw [quantizeAdjustedWithValue_snd adjusted d.levelCount hlc hadj0 hadj255]
  have hd' : d' = { d with
      errorRow0 := addAt (addAt d.errorRow0 (x + 3) error) (x + 4) error
      errorRow1 := addAt (addAt (addAt d.errorRow1 (x + 1) error) (x + 2) error) (x + 3) error
      errorRow2 := addAt d.errorRow2 (x + 2) error } := by
    show (d.processPixel gray x).2 = _
    simp only [AtkinsonDitherer.processPixel, hq]
  rw [hd']
  dsimp only
  have h1 : addAt (addAt d.errorRow0 (x + 3) error) (x + 4) error (x + 3)
      = d.errorRow0 (x + 3) + error := by
    simp only [addAt]; split_ifs <;> omega
  have h2 : addAt (addAt d.errorRow0 (x + 3) error) (x + 4) error (x + 4)
      = d.errorRow0 (x + 4) + error := by
    simp only [addAt]; split_ifs <;> omega
  have h3 : addAt (addAt (addAt d.errorRow1 (x + 1) error) (x + 2) error) (x + 3) error (x + 1)
      = d.errorRow1 (x + 1) + error := by
    simp only [addAt]; split_ifs <;> omega
  have h4 : addAt (addAt (addAt d.errorRow1 (x + 1) error) (x + 2) error) (x + 3) error (x + 2)
      = d.errorRow1 (x + 2) + error := by
    simp only [addAt]; split_ifs <;> omega
  have h5 : addAt (addAt (addAt d.errorRow1 (x + 1) error) (x + 2) error) (x + 3) error (x + 3)
      = d.errorRow1 (x + 3) + error := by
    simp only [addAt]; split_ifs <;> omega
  have h6 : addAt d.errorRow2 (x + 2) error (x + 2) = d.errorRow2 (x + 2) + error := by
    simp only [addAt]; split_ifs <;> omega
  refine ⟨h1, h2, h3, h4, h5, h6, ?_, ?_, ?_, ?_, ?_⟩
  · intro j hj3 hj4
    simp only [addAt]; split_ifs <;> omega
  · intro j hj1 hj2 hj3
    simp only [addAt]; split_ifs <;> omega
  · intro j hj2
    simp only [addAt]; split_ifs <;> omega
  · rw [h1, h2, h3, h4, h5, h6]; ring
  · intro hdvd
    obtain ⟨k, hk⟩ := hdvd
    have herr : error = k := by
      show (adjusted - reconstructed) >>> (3 : ℕ) = k
      rw [Int.shiftRight_eq_div_pow, hk]
      have h8 : (((2 : ℕ) ^ 3 : ℕ) : ℤ) = 8 := by norm_num
      rw [h8, Int.mul_ediv_cancel_left _ (by norm_num : (8 : ℤ) ≠ 0)]
    rw [herr, hk]
    ring

theorem C6_atkinson_error_distribution_witness :
    (2 : ℤ) ≤ (AtkinsonDitherer.create 4 4).levelCount ∧
    (let d := AtkinsonDitherer.create 4 4
     let g := adjustPixel 100
     let a0 := g + d.errorRow0 (0 + 2)
     let a1 := if a0 < 0 then 0 else a0
     let adjusted := if a1 > 255 then 255 else a1
     let levelRaw := (adjusted * d.levelCount) >>> (8 : ℕ)
     let level := if levelRaw ≥ d.levelCount then d.levelCount - 1 else levelRaw
     let reconstructed := (level * 255).tdiv (d.levelCount - 1)
     let error := (adjusted - reconstructed) >>> (3 : ℕ)
     let d' := (d.processPixel 100 0).2
     d'.errorRow0 (0 + 3) = d.errorRow0 (0 + 3) + error ∧
     d'.errorRow0 (0 + 4) = d.errorRow0 (0 + 4) + error ∧
     d'.errorRow1 (0 + 1) = d.errorRow1 (0 + 1) + error ∧
     d'.errorRow1 (0 + 2) = d.errorRow1 (0 + 2) + error ∧
     d'.errorRow1 (0 + 3) = d.errorRow1 (0 + 3) + error ∧
     d'.errorRow2 (0 + 2) = d.errorRow2 (0 + 2) + error ∧
     (∀ j, j ≠ 0 + 3 → j ≠ 0 + 4 → d'.errorRow0 j = d.errorRow0 j) ∧
     (∀ j, j ≠ 0 + 1 → j ≠ 0 + 2 → j ≠ 0 + 3 → d'.errorRow1 j = d.errorRow1 j) ∧
     (∀ j, j ≠ 0 + 2 → d'.errorRow2 j = d.errorRow2 j) ∧
     (d'.errorRow0 (0 + 3) + d'.errorRow0 (0 + 4) + d'.errorRow1 (0 + 1) + d'.errorRow1 (0 + 2)
         + d'.errorRow1 (0 + 3) + d'.errorRow2 (0 + 2))
       - (d.errorRow0 (0 + 3) + d.errorRow0 (0 + 4) + d.errorRow1 (0 + 1) + d.errorRow1 (0 + 2)
         + d.errorRow1 (0 + 3) + d.errorRow2 (0 + 2)) = 6 * error ∧
     (8 ∣ adjusted - reconstructed → 8 * (6 * error) = 6 * (adjusted - reconstructed))) :=
  ⟨by decide, C6_atkinson_error_distribution (AtkinsonDitherer.create 4 4) 100 0 (by decide)⟩

/-- C4: the Floyd-Steinberg claim fails on the code.  The conversion's pixel
loop passes ascending `x` on every row (lines 636-646 / 697-707); only the
error weights are mirrored on odd rows, so odd rows are NOT processed
right-to-left and the mirrored-pattern property fails: on the odd row 1 with
the vertical-edge row [61, 61, 0, 0] (levelCount 4, zero carried error) the
code yields indices [2, 2, 1, 1] while a true serpentine right-to-left pass
of the very same ditherer yields [2, 1, 1, 1] — the 7/16 "ahead" share is
deposited at the already-consumed position x-1 and discarded at the row swap.
On the even row 0 the two traversals agree, isolating the defect to the
claimed reverse scan. -/
theorem C4_floyd_steinberg_not_serpentine :
    (FloydSteinbergDitherer.mk 4 4 1 (fun _ => 0) (fun _ => 0)).isReverseRow = true ∧
    (fsProcessRowCode (FloydSteinbergDitherer.mk 4 4 1 (fun _ => 0) (fun _ => 0))
      [61, 61, 0, 0]).1 = [2, 2, 1, 1] ∧
    (fsProcessRowSerpentine (FloydSteinbergDitherer.mk 4 4 1 (fun _ => 0) (fun _ => 0))
      [61, 61, 0, 0]).1 = [2, 1, 1, 1] ∧
    ¬ (fsProcessRowCode (FloydSteinbergDitherer.mk 4 4 1 (fun _ => 0) (fun _ => 0))
        [61, 61, 0, 0]).1
      = (fsProcessRowSerpentine (FloydSteinbergDitherer.mk 4 4 1 (fun _ => 0) (fun _ => 0))
        [61, 61, 0, 0]).1 ∧
    (fsProcessRowCode (FloydSteinbergDitherer.mk 4 4 0 (fun _ => 0) (fun _ => 0))
        [61, 61, 0, 0]).1
      = (fsProcessRowSerpentine (FloydSteinbergDitherer.mk 4 4 0 (fun _ => 0) (fun _ => 0))
        [61, 61, 0, 0]).1 := by
  refine ⟨by decide, by decide, by decide, by decide, by decide⟩

/-- C9: the stream adapter serves a request of up to `bufSize` bytes from its
internal chunk buffer (`min available bufSize` bytes, no touch of the file),
refills from the underlying file exactly when the buffer is exhausted, reports
end-of-stream as zero bytes with success status 0, and returns a non-zero
(error) status precisely when the underlying file handle is invalid. -/
theorem C9_stream_adapter (ctx : JpegReadContext) (bufSize : ℕ) :
    (ctx.file.valid = false →
      jpegReadCallback ctx bufSize = (PJPG_STREAM_READ_ERROR, 0, [], ctx) ∧
        PJPG_STREAM_READ_ERROR ≠ 0) ∧
    (ctx.file.valid = true →
      (jpegReadCallback ctx bufSize).1 = 0 ∧
      (ctx.bufferPos < ctx.bufferFilled →
        jpegReadCallback ctx bufSize =
          (0, min (ctx.bufferFilled - ctx.bufferPos) bufSize,
           (ctx.buffer.drop ctx.bufferPos).take (min (ctx.bufferFilled - ctx.bufferPos) bufSize),
           { ctx with bufferPos := ctx.bufferPos + min (ctx.bufferFilled - ctx.bufferPos) bufSize })) ∧
      (ctx.bufferFilled ≤ ctx.bufferPos → ctx.file.data = [] →
        (jpegReadCallback ctx bufSize).2.1 = 0 ∧ (jpegReadCallback ctx bufSize).1 = 0) ∧
      (ctx.bufferFilled ≤ ctx.bufferPos → ctx.file.data ≠ [] →
        (jpegReadCallback ctx bufSize).2.2.2.buffer = ctx.file.data.take 512 ∧
        (jpegReadCallback ctx bufSize).2.2.2.file.data = ctx.file.data.drop 512 ∧
        (jpegReadCallback ctx bufSize).2.1 = min (ctx.file.data.take 512).length bufSize)) := by
  constructor
  · intro hv
    constructor
    · simp [jpegReadCallback, hv]
    · decide
  · intro hv
    have hvb : (!ctx.file.valid) = false := by simp [hv]
    refine ⟨?_, ?_, ?_, ?_⟩
    · simp only [jpegReadCallback, hvb, Bool.false_eq_true, if_false]
      split
      · split
        · rfl
        · simp [jpegReadCopy]
      · simp [jpegReadCopy]
    · intro hlt
      simp only [jpegReadCallback, hvb, Bool.false_eq_true, if_false,
        if_neg (show ¬ ctx.bufferPos ≥ ctx.bufferFilled by omega)]
      simp [jpegReadCopy]
    · intro hge hdata
      simp only [jpegReadCallback, hvb, Bool.false_eq_true, if_false,
        if_pos (show ctx.bufferPos ≥ ctx.bufferFilled from hge), FileModel.read, hdata]
      simp
    · intro hge hdata
      have hlen : (ctx.file.data.take 512).length ≠ 0 := by
        simp only [List.length_take]
        have : ctx.file.data.length ≠ 0 := by
          simpa using fun h => hdata (List.length_eq_zero.mp h)
        omega
      simp only [jpegReadCallback, hvb, Bool.false_eq_true, if_false,
        if_pos (show ctx.bufferPos ≥ ctx.bufferFilled from hge), FileModel.read,
        if_neg hlen, jpegReadCopy]
      simp

theorem C9_stream_adapter_witness :
    (JpegReadContext.mk (FileModel.mk true [9]) [1, 2, 3] 0 3).bufferPos
        < (JpegReadContext.mk (FileModel.mk true [9]) [1, 2, 3] 0 3).bufferFilled ∧
    jpegReadCallback (JpegReadContext.mk (FileModel.mk true [9]) [1, 2, 3] 0 3) 2 =
      (0, 2, [1, 2], JpegReadContext.mk (FileModel.mk true [9]) [1, 2, 3] 2 3) :=
  ⟨by decide,
    ((C9_stream_adapter (JpegReadContext.mk (FileModel.mk true [9]) [1, 2, 3] 0 3) 2).2
      rfl).2.1 (by decide)⟩

theorem applyContrast_range (gray : ℤ) : 0 ≤ applyContrast gray ∧ applyContrast gray ≤ 255 := by
  simp only [applyContrast]
  split_ifs <;> omega

theorem applyGamma_range (g : ℤ) (h0 : 0 ≤ g) (h255 : g ≤ 255) :
    0 ≤ applyGamma g ∧ applyGamma g ≤ 255 := by
  have hsh : ∀ a : ℤ, 0 ≤ a → 0 ≤ a >>> (1 : ℕ) := fun a ha => by
    rw [Int.shiftRight_eq_div_pow]
    exact Int.ediv_nonneg ha (by positivity)
  simp only [applyGamma, GAMMA_CORRECTION, Bool.not_true, Bool.false_eq_true, if_false]
  by_cases hpos : g > 0
  · have h1 : 0 ≤ (g + (g * 255).tdiv g) >>> (1 : ℕ) :=
      hsh _ (add_nonneg h0 (Int.tdiv_nonneg (by positivity) h0))
    have h2 : 0 ≤ ((g + (g * 255).tdiv g) >>> (1 : ℕ)
        + (g * 255).tdiv ((g + (g * 255).tdiv g) >>> (1 : ℕ))) >>> (1 : ℕ) :=
      hsh _ (add_nonneg h1 (Int.tdiv_nonneg (by positivity) h1))
    rw [if_pos hpos, if_pos hpos]
    constructor
    · split <;> omega
    · split <;> omega
  · rw [if_neg hpos, if_neg hpos]
    constructor
    · split <;> omega
    · split <;> omega

/-- The tone-mapped value always lands in [0, 255]. -/
theorem adjustPixel_range (gray : ℤ) : 0 ≤ adjustPixel gray ∧ adjustPixel gray ≤ 255 := by
  have hc := applyContrast_range gray
  simp only [adjustPixel, USE_BRIGHTNESS, Bool.not_true, Bool.false_eq_true, if_false,
    BRIGHTNESS_BOOST]
  apply applyGamma_range <;> split_ifs <;> omega

theorem quantizeAdjustedSimple_lt (gray lc : ℤ) (h1 : 1 ≤ lc) (h256 : lc ≤ 256) :
    ((quantizeAdjustedSimple gray lc : ℕ) : ℤ) < lc := by
  simp only [quantizeAdjustedSimple]
  split
  · simp only [Int.toNat_zero, Nat.cast_zero]
    omega
  · apply quantize_level_lt_aux _ _ (by assumption) h256
    split
    · norm_num
    · split <;> omega

theorem quantizeNoise_lt (gray : ℤ) (x y : ℕ) (lc : ℤ) (h1 : 1 ≤ lc) (h256 : lc ≤ 256) :
    ((quantizeNoise gray x y lc : ℕ) : ℤ) < lc := by
  simp only [quantizeNoise]
  split
  · simp only [Int.toNat_zero, Nat.cast_zero]
    omega
  · have hg := adjustPixel_range gray
    have ht : 0 ≤ (adjustPixel gray * lc) >>> (8 : ℕ) := by
      rw [Int.shiftRight_eq_div_pow]
      exact Int.ediv_nonneg (mul_nonneg hg.1 (by omega)) (by positivity)
    generalize (adjustPixel gray * lc) >>> (8 : ℕ) = t at ht ⊢
    split_ifs <;> omega

theorem getD_set_ne (l : List ℕ) (a : ℕ) {i j : ℕ} (h : i ≠ j) :
    (l.set i a).getD j 0 = l.getD j 0 := by
  simp [List.getD_eq_getElem?_getD, List.getElem?_set_ne h]

/-- Or-ing in a value whose bits avoid the window `[k', k'+n)` does not change
that window. -/
theorem or_mask_shift_and (b m k' n : ℕ) (hm : ∀ i, i < n → m.testBit (k' + i) = false) :
    (b ||| m) >>> k' &&& (2 ^ n - 1) = b >>> k' &&& (2 ^ n - 1) := by
  apply Nat.eq_of_testBit_eq
  intro i
  simp only [Nat.testBit_and, Nat.testBit_shiftRight, Nat.testBit_or,
    Nat.testBit_two_pow_sub_one]
  by_cases hi : i < n
  · rw [hm i hi]
    simp
  · simp [hi]

/-- Bits of the packed-and-masked value `(v << k) % 256` outside `[k, k+n)`
are clear when `v < 2^n`. -/
theorem mask_testBit_false (v k n j : ℕ) (hv : v < 2 ^ n) (hj : j < k ∨ k + n ≤ j) :
    ((v <<< k) % 256).testBit j = false := by
  rw [show (256 : ℕ) = 2 ^ 8 by norm_num, Nat.testBit_mod_two_pow]
  rcases Nat.lt_or_ge j 8 with h8 | h8
  · rw [Nat.testBit_shiftLeft]
    rcases hj with hj | hj
    · simp [Nat.not_le.mpr hj]
    · have hvb : v.testBit (j - k) = false :=
        Nat.testBit_lt_two_pow
          (lt_of_lt_of_le hv (Nat.pow_le_pow_right (by norm_num) (by omega)))
      simp [hvb]
  · simp [Nat.not_lt.mpr h8]

/-- `writeIndexedPixel` never touches the bit field of a different pixel. -/
theorem writeIndexedPixel_preserves (row : List ℕ) (x x' v bpp : ℕ)
    (hbpp : bpp = 1 ∨ bpp = 2) (hv : v < 2 ^ bpp) (hne : x' ≠ x) :
    extractIndexedPixel (writeIndexedPixel row x bpp v) x' bpp
      = extractIndexedPixel row x' bpp := by
  have hand : ∀ a : ℕ, a &&& 7 = a % 8 := by
    intro a
    have := Nat.and_pow_two_sub_one_eq_mod a 3
    norm_num at this
    exact this
  have hshr : ∀ a : ℕ, a >>> 3 = a / 8 := by
    intro a
    rw [Nat.shiftRight_eq_div_pow]
  simp only [writeIndexedPixel, extractIndexedPixel, hand, hshr]
  by_cases hbyte : x * bpp / 8 = x' * bpp / 8
  · rw [← hbyte]
    by_cases hlen : x * bpp / 8 < row.length
    · rw [List.getD_eq_getElem?_getD, List.getElem?_set_eq_of_lt _ hlen]
      simp only [Option.getD_some]
      apply or_mask_shift_and
      intro i hi
      apply mask_testBit_false v _ bpp _ hv
      rcases hbpp with h | h <;> subst h <;> omega
    · rw [List.getD_eq_getElem?_getD, List.getElem?_set, if_pos rfl, if_neg hlen,
        List.getD_eq_getElem?_getD, List.getElem?_eq_none (by omega)]
  · rw [getD_set_ne _ _ hbyte]

/-- C10: every palette index produced by any quantization policy — plain,
hash-noise, Atkinson, Floyd-Steinberg — is below `levelCount = 2^bitsPerPixel`,
and the MSB-first packing of a value below `2^bitsPerPixel` into a row byte
never disturbs the bit field of any other pixel. -/
theorem C10_index_range_and_packing (bpp : ℕ) (lc : ℤ)
    (hbpp : bpp = 1 ∨ bpp = 2) (hlc : lc = 2 ^ bpp) :
    (∀ gray : ℤ, ((quantizeSimple gray lc : ℕ) : ℤ) < lc) ∧
    (∀ (gray : ℤ) (x y : ℕ), ((quantizeNoise gray x y lc : ℕ) : ℤ) < lc) ∧
    (∀ (d : AtkinsonDitherer) (gray : ℤ) (x : ℕ), d.levelCount = lc →
      (((d.processPixel gray x).1 : ℕ) : ℤ) < lc) ∧
    (∀ (d : FloydSteinbergDitherer) (gray : ℤ) (x : ℕ) (rev : Bool), d.levelCount = lc →
      (((d.processPixel gray x rev).1 : ℕ) : ℤ) < lc) ∧
    (∀ (row : List ℕ) (x x' v : ℕ), v < 2 ^ bpp → x' ≠ x →
      extractIndexedPixel (writeIndexedPixel row x bpp v) x' bpp
        = extractIndexedPixel row x' bpp) := by
  have h1 : 1 ≤ lc := by rcases hbpp with h | h <;> subst h <;> simp [hlc]
  have h256 : lc ≤ 256 := by rcases hbpp with h | h <;> subst h <;> norm_num [hlc]
  refine ⟨?_, ?_, ?_, ?_, ?_⟩
  · intro gray
    exact quantizeAdjustedSimple_lt _ _ h1 h256
  · intro gray x y
    exact quantizeNoise_lt _ _ _ _ h1 h256
  · intro d gray x hd
    simp only [AtkinsonDitherer.processPixel]
    rw [← hd]
    exact quantizeAdjustedWithValue_fst_lt _ _ (hd ▸ h1) (hd ▸ h256)
  · intro d gray x rev hd
    simp only [FloydSteinbergDitherer.processPixel]
    split <;>
      exact quantizeAdjustedWithValue_fst_lt _ _ (hd ▸ h1) (hd ▸ h256) |>.trans_eq (by rw [hd])
  · intro row x x' v hv hne
    exact writeIndexedPixel_preserves row x x' v bpp hbpp hv hne

theorem C10_index_range_and_packing_witness :
    ((2 : ℕ) = 1 ∨ (2 : ℕ) = 2) ∧ (4 : ℤ) = 2 ^ 2 ∧
    ((∀ gray : ℤ, ((quantizeSimple gray 4 : ℕ) : ℤ) < 4) ∧
     (∀ (gray : ℤ) (x y : ℕ), ((quantizeNoise gray x y 4 : ℕ) : ℤ) < 4) ∧
     (∀ (d : AtkinsonDitherer) (gray : ℤ) (x : ℕ), d.levelCount = 4 →
       (((d.processPixel gray x).1 : ℕ) : ℤ) < 4) ∧
     (∀ (d : FloydSteinbergDitherer) (gray : ℤ) (x : ℕ) (rev : Bool), d.levelCount = 4 →
       (((d.processPixel gray x rev).1 : ℕ) : ℤ) < 4) ∧
     (∀ (row : List ℕ) (x x' v : ℕ), v < 2 ^ 2 → x' ≠ x →
       extractIndexedPixel (writeIndexedPixel row x 2 v) x' 2
         = extractIndexedPixel row x' 2)) :=
  ⟨by decide, by decide, C10_index_range_and_packing 2 4 (by decide) (by decide)⟩

theorem foldl_fst_length {β : Type} (step : List ℕ × β → ℕ → List ℕ × β)
    (hstep : ∀ acc x, (step acc x).1.length = acc.1.length) :
    ∀ (l : List ℕ) (init : List ℕ × β), (l.foldl step init).1.length = init.1.length := by
  intro l
  induction l with
  | nil => intro init; rfl
  | cons x xs ih => intro init; rw [List.foldl_cons, ih, hstep]

theorem foldl_list_length (step : List ℕ → ℕ → List ℕ)
    (hstep : ∀ acc x, (step acc x).length = acc.length) :
    ∀ (l : List ℕ) (init : List ℕ), (l.foldl step init).length = init.length := by
  intro l
  induction l with
  | nil => intro init; rfl
  | cons x xs ih => intro init; rw [List.foldl_cons, ih, hstep]

/-- Every packed row has exactly `bytesPerRow` bytes. -/
theorem buildRow_length (P : ConvParams) (ds : DitherState) (grayAt : ℕ → ℕ) (y : ℕ) :
    (buildRow P ds grayAt y).1.length = P.bytesPerRow := by
  simp only [buildRow]
  split
  · rw [foldl_fst_length _ (fun acc x => ?_) _ _]
    · exact List.length_replicate _ _
    · simp only [writeIndexedPixel, List.length_set]
  · rw [foldl_list_length _ (fun acc x => List.length_set _ _ _) _ _]
    exact List.length_replicate _ _

/-- Without scaling, each processed source row appends exactly one packed row
and leaves the output-row bookkeeping untouched. -/
theorem processSrcRow_noscale (P : ConvParams) (buf : ℕ → ℕ) (startRow y : ℕ)
    (s : LoopState) (hns : P.needsScaling = false) :
    ∃ r : List ℕ, (processSrcRow P buf startRow y s).out = s.out ++ r ∧
      r.length = P.bytesPerRow := by
  simp only [processSrcRow, hns, Bool.not_false, if_true]
  exact ⟨_, rfl, buildRow_length _ _ _ _⟩

/-- Without scaling, a block of `k` consecutive source rows appends exactly
`k` packed rows. -/
theorem segment_noscale (P : ConvParams) (buf : ℕ → ℕ) (startRow : ℕ)
    (hns : P.needsScaling = false) :
    ∀ (k a : ℕ) (s : LoopState),
      ∃ r : List ℕ,
        ((List.range' a k).foldl (fun st yy => processSrcRow P buf startRow yy st) s).out
          = s.out ++ r ∧ r.length = k * P.bytesPerRow := by
  intro k
  induction k with
  | zero => intro a s; exact ⟨[], by simp, by simp⟩
  | succ n ih =>
    intro a s
    obtain ⟨r1, hr1, hl1⟩ := processSrcRow_noscale P buf startRow a s hns
    obtain ⟨r2, hr2, hl2⟩ := ih (a + 1) (processSrcRow P buf startRow a s)
    refine ⟨r1 ++ r2, ?_, ?_⟩
    · rw [List.range'_succ, List.foldl_cons, hr2, hr1, List.append_assoc]
    · rw [List.length_append, hl1, hl2]
      ring

/-- With scaling, one processed source row flushes exactly one packed output
row when the 16.16 source-row counter crosses the next output-row boundary
(and the output is not yet full), and otherwise only accumulates; the output
row counter always equals `min outH ((y+1) * 2^16 / scaleY)`. -/
theorem processSrcRow_scale (P : ConvParams) (buf : ℕ → ℕ) (startRow y : ℕ) (s : LoopState)
    (hsc : P.needsScaling = true) (hsY : 65536 ≤ P.scaleY)
    (hcur : s.currentOutY = min P.outH (y <<< 16 / P.scaleY))
    (hbd : s.nextBoundary = (s.currentOutY + 1) * P.scaleY) :
    (processSrcRow P buf startRow y s).currentOutY
        = min P.outH ((y + 1) <<< 16 / P.scaleY) ∧
    (processSrcRow P buf startRow y s).nextBoundary
        = ((processSrcRow P buf startRow y s).currentOutY + 1) * P.scaleY ∧
    s.currentOutY ≤ (processSrcRow P buf startRow y s).currentOutY ∧
    ∃ r, (processSrcRow P buf startRow y s).out = s.out ++ r ∧
      r.length = ((processSrcRow P buf startRow y s).currentOutY - s.currentOutY)
        * P.bytesPerRow := by
  have hpos : 0 < P.scaleY := by omega
  have hm : (y + 1) <<< 16 = y <<< 16 + 65536 := by
    rw [Nat.shiftLeft_eq, Nat.shiftLeft_eq]
    ring
  have hdle : y <<< 16 / P.scaleY ≤ (y + 1) <<< 16 / P.scaleY :=
    Nat.div_le_div_right (by omega)
  have hdle2 : (y + 1) <<< 16 / P.scaleY ≤ y <<< 16 / P.scaleY + 1 := by
    calc (y + 1) <<< 16 / P.scaleY ≤ (y <<< 16 + P.scaleY) / P.scaleY :=
          Nat.div_le_div_right (by omega)
      _ = y <<< 16 / P.scaleY + 1 := Nat.add_div_right _ hpos
  simp only [processSrcRow, hsc, Bool.not_true, Bool.false_eq_true, if_false]
  by_cases hflush : ((y + 1) <<< 16 ≥ s.nextBoundary ∧ s.currentOutY < P.outH)
  · rw [if_pos hflush]
    dsimp only
    obtain ⟨hge, hlt⟩ := hflush
    have hcurlt : s.currentOutY = y <<< 16 / P.scaleY := by omega
    have hd1 : s.currentOutY + 1 ≤ (y + 1) <<< 16 / P.scaleY := by
      rw [Nat.le_div_iff_mul_le hpos]
      rw [hbd] at hge
      exact hge
    have hnew : min P.outH ((y + 1) <<< 16 / P.scaleY) = s.currentOutY + 1 := by omega
    refine ⟨hnew.symm, rfl, by omega, ⟨_, rfl, ?_⟩⟩
    rw [buildRow_length]
    have h1 : s.currentOutY + 1 - s.currentOutY = 1 := by omega
    rw [h1, one_mul]
  · rw [if_neg hflush]
    dsimp only
    have hkeep : min P.outH ((y + 1) <<< 16 / P.scaleY) = s.currentOutY := by
      by_cases hB : s.currentOutY < P.outH
      · have hA : ¬ ((y + 1) <<< 16 ≥ s.nextBoundary) := fun hA => hflush ⟨hA, hB⟩
        rw [hbd] at hA
        have hlt2 : (y + 1) <<< 16 / P.scaleY < s.currentOutY + 1 := by
          by_contra hc
          exact hA ((Nat.le_div_iff_mul_le hpos).mp (by omega))
        omega
      · omega
    exact ⟨hkeep.symm, by rw [hbd], le_refl _, ⟨[], by simp, by simp [hkeep]⟩⟩

/-- With scaling, a block of consecutive source rows advances the output-row
counter to `min outH ((a+k) * 2^16 / scaleY)` and appends exactly one packed
row per counter increment. -/
theorem segment_scale (P : ConvParams) (buf : ℕ → ℕ) (startRow : ℕ)
    (hsc : P.needsScaling = true) (hsY : 65536 ≤ P.scaleY) :
    ∀ (k a : ℕ) (s : LoopState),
      s.currentOutY = min P.outH (a <<< 16 / P.scaleY) →
      s.nextBoundary = (s.currentOutY + 1) * P.scaleY →
      ((List.range' a k).foldl (fun st yy => processSrcRow P buf startRow yy st) s).currentOutY
          = min P.outH ((a + k) <<< 16 / P.scaleY) ∧
      ((List.range' a k).foldl (fun st yy => processSrcRow P buf startRow yy st) s).nextBoundary
          = (((List.range' a k).foldl (fun st yy => processSrcRow P buf startRow yy st)
              s).currentOutY + 1) * P.scaleY ∧
      s.currentOutY ≤ ((List.range' a k).foldl
          (fun st yy => processSrcRow P buf startRow yy st) s).currentOutY ∧
      ∃ r, ((List.range' a k).foldl (fun st yy => processSrcRow P buf startRow yy st) s).out
          = s.out ++ r ∧
        r.length = (((List.range' a k).foldl (fun st yy => processSrcRow P buf startRow yy st)
            s).currentOutY - s.currentOutY) * P.bytesPerRow := by
  intro k
  induction k with
  | zero =>
    intro a s hcur hbd
    refine ⟨by simpa using hcur, by simpa using hbd, le_refl _, ⟨[], by simp, by simp⟩⟩
  | succ n ih =>
    intro a s hcur hbd
    obtain ⟨h1, h2, h3, r1, hr1, hl1⟩ := processSrcRow_scale P buf startRow a s hsc hsY hcur hbd
    obtain ⟨g1, g2, g3, r2, hr2, hl2⟩ := ih (a + 1) (processSrcRow P buf startRow a s) h1 h2
    rw [List.range'_succ]
    refine ⟨?_, ?_, ?_, ?_⟩
    · rw [List.foldl_cons, g1]
      have : a + 1 + n = a + (n + 1) := by omega
      rw [this]
    · rw [List.foldl_cons, g2]
    · rw [List.foldl_cons]
      omega
    · refine ⟨r1 ++ r2, ?_, ?_⟩
      · rw [List.foldl_cons, hr2, hr1, List.append_assoc]
      · rw [List.length_append, hl1, hl2, List.foldl_cons]
        have hmono : s.currentOutY ≤ (processSrcRow P buf startRow a s).currentOutY := h3
        have hmono2 : (processSrcRow P buf startRow a s).currentOutY ≤
            ((List.range' (a + 1) n).foldl (fun st yy => processSrcRow P buf startRow yy st)
              (processSrcRow P buf startRow a s)).currentOutY := g3
        generalize s.currentOutY = c0 at *
        generalize (processSrcRow P buf startRow a s).currentOutY = c1 at *
        generalize ((List.range' (a + 1) n).foldl (fun st yy => processSrcRow P buf startRow yy st)
            (processSrcRow P buf startRow a s)).currentOutY = c2 at *
        rw [← Nat.add_mul]
        congr 1
        omega

/-- When every MCU decode succeeds, a whole MCU row decodes to a buffer. -/
theorem decodeMcuRow_some (info : ImageInfo) (mcus : ℕ → MCUDecode) (mcuY : ℕ)
    (h : ∀ i, (mcus i).status = 0) :
    ∃ buf, decodeMcuRow info mcus mcuY = some buf := by
  simp only [decodeMcuRow]
  have H : ∀ (l : List ℕ) (b : ℕ → ℕ),
      ∃ buf, (l.foldl (fun acc mcuX =>
        match acc with
        | none => none
        | some buf =>
          let d := mcus (mcuY * info.m_MCUSPerRow + mcuX)
          if d.status ≠ 0 then none else some (writeMcuToBuf info d mcuX buf))
        (some b)) = some buf := by
    intro l
    induction l with
    | nil => intro b; exact ⟨b, rfl⟩
    | cons x xs ih =>
      intro b
      rw [List.foldl_cons]
      have hx := h (mcuY * info.m_MCUSPerRow + x)
      simp only [hx, ne_eq, not_true_eq_false, if_false]
      exact ih _
  exact H _ _

/-- Folding from a poisoned accumulator stays poisoned. -/
theorem foldl_none_absorb {α β : Type} (f : Option α → β → Option α)
    (hf : ∀ x, f none x = none) : ∀ l : List β, l.foldl f none = none := by
  intro l
  induction l with
  | nil => rfl
  | cons x xs ih => rw [List.foldl_cons, hf]; exact ih

/-- If the very first `pjpeg_decode_mcu` call fails, the first MCU row decode
fails. -/
theorem decodeMcuRow_zero_none (info : ImageInfo) (mcus : ℕ → MCUDecode)
    (hR : 1 ≤ info.m_MCUSPerRow) (h0 : (mcus 0).status ≠ 0) :
    decodeMcuRow info mcus 0 = none := by
  obtain ⟨n, hn⟩ : ∃ n, info.m_MCUSPerRow = n + 1 := ⟨info.m_MCUSPerRow - 1, by omega⟩
  simp only [decodeMcuRow, hn, List.range_succ_eq_map, List.foldl_cons, Nat.zero_mul,
    Nat.zero_add]
  simp only [h0, ne_eq, not_false_eq_true, if_true]
  exact foldl_none_absorb _ (fun x => rfl) _

/-- An Except error state absorbs the rest of the MCU loop. -/
theorem mcuLoop_error_absorb (P : ConvParams) (info : ImageInfo) (mcus : ℕ → MCUDecode) :
    ∀ (l : List ℕ) (e : LoopState),
      (l.foldl (fun acc mcuY => acc >>= stepMcuY P info mcus mcuY)
        (Except.error e)) = Except.error e := by
  intro l
  induction l with
  | nil => intro e; rfl
  | cons x xs ih => intro e; rw [List.foldl_cons]; exact ih e

/-- Without scaling, the whole MCU loop appends one packed row per covered
source row: `min (N * mcuH) srcH` rows after `N` MCU rows. -/
theorem runLoop_noscale (P : ConvParams) (info : ImageInfo) (mcus : ℕ → MCUDecode)
    (hns : P.needsScaling = false) (hdec : ∀ i, (mcus i).status = 0) :
    ∀ (N : ℕ) (s : LoopState),
      ∃ s' r, (List.range N).foldl (fun acc mcuY => acc >>= stepMcuY P info mcus mcuY)
          (Except.ok s) = Except.ok s' ∧
        s'.out = s.out ++ r ∧ r.length = min (N * P.mcuH) P.srcH * P.bytesPerRow := by
  intro N
  induction N with
  | zero => intro s; exact ⟨s, [], rfl, by simp, by simp⟩
  | succ n ih =>
    intro s
    obtain ⟨s1, r1, hf, ho, hl⟩ := ih s
    obtain ⟨buf, hbuf⟩ := decodeMcuRow_some info mcus n hdec
    have hstep : stepMcuY P info mcus n s1 =
        Except.ok ((List.range' (n * P.mcuH) (min ((n + 1) * P.mcuH) P.srcH - n * P.mcuH)).foldl
          (fun st y => processSrcRow P buf (n * P.mcuH) y st) s1) := by
      simp only [stepMcuY, hbuf]
    obtain ⟨r2, hr2, hl2⟩ := segment_noscale P buf (n * P.mcuH) hns
      (min ((n + 1) * P.mcuH) P.srcH - n * P.mcuH) (n * P.mcuH) s1
    rw [List.range_succ, List.foldl_append, List.foldl_cons, List.foldl_nil, hf]
    refine ⟨(List.range' (n * P.mcuH) (min ((n + 1) * P.mcuH) P.srcH - n * P.mcuH)).foldl
        (fun st y => processSrcRow P buf (n * P.mcuH) y st) s1, r1 ++ r2, ?_, ?_, ?_⟩
    · show stepMcuY P info mcus n s1 = _
      exact hstep
    · rw [hr2, ho, List.append_assoc]
    · rw [List.length_append, hl, hl2, ← Nat.add_mul]
      congr 1
      rw [Nat.succ_mul]
      generalize n * P.mcuH = A
      omega

/-- With scaling, after `N` MCU rows the output-row counter sits at
`min outH (covered * 2^16 / scaleY)` for `covered = min (N * mcuH) srcH`
source rows, one packed row flushed per counter increment. -/
theorem runLoop_scale (P : ConvParams) (info : ImageInfo) (mcus : ℕ → MCUDecode)
    (hsc : P.needsScaling = true) (hsY : 65536 ≤ P.scaleY)
    (hdec : ∀ i, (mcus i).status = 0) :
    ∀ (N : ℕ) (s : LoopState),
      s.currentOutY = 0 → s.nextBoundary = P.scaleY →
      ∃ s' r, (List.range N).foldl (fun acc mcuY => acc >>= stepMcuY P info mcus mcuY)
          (Except.ok s) = Except.ok s' ∧
        s'.currentOutY = min P.outH (min (N * P.mcuH) P.srcH <<< 16 / P.scaleY) ∧
        s'.nextBoundary = (s'.currentOutY + 1) * P.scaleY ∧
        s'.out = s.out ++ r ∧ r.length = s'.currentOutY * P.bytesPerRow := by
  intro N
  induction N with
  | zero =>
    intro s h0 hb
    refine ⟨s, [], rfl, ?_, ?_, by simp, by simp [h0]⟩
    · simp [h0]
    · simp [hb, h0]
  | succ n ih =>
    intro s h0 hb
    obtain ⟨s1, r1, hf, hc1, hb1, ho, hl⟩ := ih s h0 hb
    obtain ⟨buf, hbuf⟩ := decodeMcuRow_some info mcus n hdec
    have hstep : stepMcuY P info mcus n s1 =
        Except.ok ((List.range' (n * P.mcuH) (min ((n + 1) * P.mcuH) P.srcH - n * P.mcuH)).foldl
          (fun st y => processSrcRow P buf (n * P.mcuH) y st) s1) := by
      simp only [stepMcuY, hbuf]
    rw [List.range_succ, List.foldl_append, List.foldl_cons, List.foldl_nil, hf]
    by_cases hcase : n * P.mcuH ≤ P.srcH
    · have hmin : min (n * P.mcuH) P.srcH = n * P.mcuH := by omega
      rw [hmin] at hc1
      obtain ⟨g1, g2, g3, r2, hr2, hl2⟩ := segment_scale P buf (n * P.mcuH) hsc hsY
        (min ((n + 1) * P.mcuH) P.srcH - n * P.mcuH) (n * P.mcuH) s1 hc1 hb1
      have hcov : n * P.mcuH + (min ((n + 1) * P.mcuH) P.srcH - n * P.mcuH)
          = min ((n + 1) * P.mcuH) P.srcH := by
        revert hcase
        rw [Nat.succ_mul]
        generalize n * P.mcuH = A
        intro hcase
        omega
      rw [hcov] at g1
      refine ⟨(List.range' (n * P.mcuH) (min ((n + 1) * P.mcuH) P.srcH - n * P.mcuH)).foldl
        (fun st yy => processSrcRow P buf (n * P.mcuH) yy st) s1, r1 ++ r2, ?_, g1, g2, ?_, ?_⟩
      · show stepMcuY P info mcus n s1 = _
        exact hstep
      · rw [hr2, ho, List.append_assoc]
      · rw [List.length_append, hl, hl2, ← Nat.add_mul]
        congr 1
        omega
    · have hcnt : min ((n + 1) * P.mcuH) P.srcH - n * P.mcuH = 0 := by
        rw [Nat.succ_mul]
        generalize n * P.mcuH = A at *
        omega
      have hmins : min ((n + 1) * P.mcuH) P.srcH = min (n * P.mcuH) P.srcH := by
        rw [Nat.succ_mul]
        generalize n * P.mcuH = A at *
        omega
      rw [hcnt] at hstep
      refine ⟨s1, r1, ?_, ?_, hb1, ho, ?_⟩
      · show stepMcuY P info mcus n s1 = _
        rw [hstep]
        rfl
      · rw [hmins]
        exact hc1
      · exact hl

set_option maxRecDepth 10000 in
theorem paletteBytes_length (bpp : ℕ) :
    (paletteBytes bpp).length = 4 * getColorsUsed bpp := by
  by_cases h8 : bpp = 8
  · subst h8; decide
  · by_cases h2 : bpp = 2
    · subst h2; decide
    · simp only [paletteBytes, getColorsUsed, if_neg h8, if_neg h2]
      decide

theorem writeBmpHeader_length (w h bpp : ℕ) :
    (writeBmpHeader w h bpp).length = 54 + 4 * getColorsUsed bpp := by
  simp only [writeBmpHeader, write32, write16, write32Signed, List.length_append,
    List.length_cons, List.length_nil, paletteBytes_length]

theorem le32_roundtrip (v : ℕ) (hv : v < 2 ^ 32) :
    (v &&& 255) + 256 * ((v >>> 8) &&& 255) + 65536 * ((v >>> 16) &&& 255)
      + 16777216 * ((v >>> 24) &&& 255) = v := by
  have hand : ∀ a : ℕ, a &&& 255 = a % 256 := fun a => by
    have := Nat.and_pow_two_sub_one_eq_mod a 8
    norm_num at this
    exact this
  simp only [hand, Nat.shiftRight_eq_div_pow]
  norm_num
  omega

theorem decodeLE32_cons_two (a b x0 x1 x2 x3 : ℕ) (rest : List ℕ) :
    decodeLE32 (a :: b :: x0 :: x1 :: x2 :: x3 :: rest) 2
      = x0 + 256 * x1 + 65536 * x2 + 16777216 * x3 := rfl

/-- The fileSize field written at bytes 2-5 of the header is the analytic
total `54 + paletteBytes + bytesPerRow * height`. -/
theorem writeBmpHeader_fileSize (w h bpp : ℕ)
    (hv : 54 + 4 * getColorsUsed bpp + getBytesPerRow w bpp * h < 2 ^ 32) :
    decodeLE32 (writeBmpHeader w h bpp) 2
      = 54 + 4 * getColorsUsed bpp + getBytesPerRow w bpp * h := by
  simp only [writeBmpHeader, write32, write16, write32Signed, List.cons_append,
    List.nil_append]
  rw [decodeLE32_cons_two, le32_roundtrip _ (by omega)]
  omega

theorem decodeLE32_append (l l' : List ℕ) (off : ℕ) (hoff : off + 3 < l.length) :
    decodeLE32 (l ++ l') off = decodeLE32 l off := by
  simp only [decodeLE32]
  rw [List.getD_append _ _ _ _ (by omega), List.getD_append _ _ _ _ (by omega),
    List.getD_append _ _ _ _ (by omega), List.getD_append _ _ _ _ (by omega)]

theorem getBytesPerRow_le (w bpp : ℕ) : getBytesPerRow w bpp ≤ w + 34 := by
  simp only [getBytesPerRow]
  split_ifs <;> omega

theorem getColorsUsed_le (bpp : ℕ) : getColorsUsed bpp ≤ 256 := by
  simp only [getColorsUsed]
  split_ifs <;> omega

/-- The success-path cleanup (lines 729-743) releases every ledger entry. -/
theorem convLive0_erase_all (i s : Bool) :
    ((((((convLive0 i s).erase .rowAccum).erase .rowCnt).erase
      .atkinsonDitherer).erase .fsDitherer).erase .mcuRowBuffer).erase .rowBuffer
      = [] := by
  cases i <;> cases s <;> decide

set_option maxHeartbeats 1000000 in
/-- C1: every successful conversion at a supported depth writes exactly
`54 + paletteBytes + bytesPerRow * outputHeight` bytes (in the scaling path
this means exactly `outputHeight` flushed rows), that count equals the
fileSize field stored at bytes 2-5 of the header, the header itself is the
prefix of the sink (written once, never patched afterwards), and no buffer
is left allocated. -/
theorem C1_total_bytes_and_file_size (info : ImageInfo) (mcus : ℕ → MCUDecode)
    (preW preH bpp tW tH : ℕ)
    (hbpp : bpp = 1 ∨ bpp = 2 ∨ bpp = 8)
    (hdec : ∀ i, (mcus i).status = 0)
    (hw : info.m_width ≤ 2048) (hh : info.m_height ≤ 3072)
    (hmcu : info.m_width * info.m_MCUHeight ≤ 65536)
    (hcov : info.m_height ≤ info.m_MCUSPerCol * info.m_MCUHeight)
    (hpre : needsScaling info.m_width info.m_height tW tH = true →
      1 ≤ preH ∧ preH ≤ info.m_height ∧ preW ≤ info.m_width) :
    (jpegFileToBmpStream info 0 mcus preW preH true true bpp tW tH).ok = true ∧
    (jpegFileToBmpStream info 0 mcus preW preH true true bpp tW tH).out.length
      = 54 + 4 * getColorsUsed bpp
        + getBytesPerRow (outputDims info.m_width info.m_height preW preH tW tH).1 bpp
          * (outputDims info.m_width info.m_height preW preH tW tH).2 ∧
    (jpegFileToBmpStream info 0 mcus preW preH true true bpp tW tH).out.take
        (54 + 4 * getColorsUsed bpp)
      = writeBmpHeader (outputDims info.m_width info.m_height preW preH tW tH).1
          (outputDims info.m_width info.m_height preW preH tW tH).2 bpp ∧
    decodeLE32 (jpegFileToBmpStream info 0 mcus preW preH true true bpp tW tH).out 2
      = 54 + 4 * getColorsUsed bpp
        + getBytesPerRow (outputDims info.m_width info.m_height preW preH tW tH).1 bpp
          * (outputDims info.m_width info.m_height preW preH tW tH).2 ∧
    (jpegFileToBmpStream info 0 mcus preW preH true true bpp tW tH).live = [] := by
  have hcolors := getColorsUsed_le bpp
  set P := convParams info preW preH bpp tW tH with hP
  set s0 := convInit info preW preH bpp tW tH with hs0
  set od := outputDims info.m_width info.m_height preW preH tW tH with hod
  have hPoutW : P.outW = od.1 := by rw [hP, hod]; rfl
  have hPoutH : P.outH = od.2 := by rw [hP, hod]; rfl
  have hPsrcH : P.srcH = info.m_height := by rw [hP]; rfl
  have hPmcuH : P.mcuH = info.m_MCUHeight := by rw [hP]; rfl
  have hPbpr : P.bytesPerRow = getBytesPerRow od.1 bpp := by rw [hP, hod]; rfl
  have hs0out : s0.out = writeBmpHeader P.outW P.outH bpp := by
    rw [hs0]; simp only [convInit]
  have hs0cur : s0.currentOutY = 0 := by rw [hs0]; rfl
  have hred : jpegFileToBmpStream info 0 mcus preW preH true true bpp tW tH =
      (match runMcuLoop P info mcus s0 with
       | .error s =>
         ⟨false, s.out,
           ((convLive0 P.indexed P.needsScaling).erase .mcuRowBuffer).erase .rowBuffer⟩
       | .ok s =>
         ⟨true, s.out,
           ((((((convLive0 P.indexed P.needsScaling).erase .rowAccum).erase
             .rowCnt).erase .atkinsonDitherer).erase .fsDitherer).erase
             .mcuRowBuffer).erase .rowBuffer⟩) := by
    simp only [jpegFileToBmpStream, if_neg (not_not_intro hbpp)]
    rw [if_neg (show ¬ (0 : ℕ) ≠ 0 by omega)]
    rw [if_neg (show ¬ (info.m_width > 2048 ∨ info.m_height > 3072) by omega)]
    simp only [Bool.not_true, Bool.false_eq_true, if_false]
    rw [if_neg (show ¬ info.m_width * info.m_MCUHeight > 65536 by omega)]
  have hminh : min (info.m_MCUSPerCol * P.mcuH) P.srcH = P.srcH := by
    rw [hPmcuH, hPsrcH]
    revert hcov
    generalize info.m_MCUSPerCol * info.m_MCUHeight = A
    intro hcov
    omega
  by_cases hsc : needsScaling info.m_width info.m_height tW tH = true
  · -- scaling path
    obtain ⟨hpre1, hpre2, hpre3⟩ := hpre hsc
    have hPns : P.needsScaling = true := by rw [hP]; simp only [convParams]; exact hsc
    have hod2 : od.2 = preH := by
      rw [hod]
      simp only [outputDims, hsc, if_true]
      rw [if_neg (by omega)]
    have hod1le : od.1 ≤ 2048 := by
      rw [hod]
      simp only [outputDims, hsc, if_true]
      split <;> omega
    have hscaleY : P.scaleY = info.m_height <<< 16 / od.2 := by
      rw [hP, hod]
      simp only [convParams, hsc, if_true]
    have hsY : 65536 ≤ P.scaleY := by
      rw [hscaleY, hod2, Nat.le_div_iff_mul_le (by omega), Nat.shiftLeft_eq]
      have : (2 : ℕ) ^ 16 = 65536 := by norm_num
      rw [this]
      nlinarith
    have hpos : 0 < P.scaleY := by omega
    have hs0bd : s0.nextBoundary = P.scaleY := by
      rw [hs0]; simp only [convInit]; rw [← hP]
      simp [hPns]
    obtain ⟨s', r, hrun, hcur, hbd, hout, hlen⟩ :=
      runLoop_scale P info mcus hPns hsY hdec info.m_MCUSPerCol s0 hs0cur hs0bd
    have hrunL : runMcuLoop P info mcus s0 = .ok s' := by
      simp only [runMcuLoop]; exact hrun
    rw [hred, hrunL]
    have hfin : s'.currentOutY = P.outH := by
      rw [hcur, hminh]
      have hmul : P.outH * P.scaleY ≤ P.srcH <<< 16 := by
        rw [hscaleY, hPoutH, hPsrcH, mul_comm]
        exact Nat.div_mul_le_self _ _
      have h2 : P.outH ≤ P.srcH <<< 16 / P.scaleY := (Nat.le_div_iff_mul_le hpos).mpr hmul
      omega
    have hlength : s'.out.length = 54 + 4 * getColorsUsed bpp
        + getBytesPerRow od.1 bpp * od.2 := by
      rw [hout, hs0out, List.length_append, writeBmpHeader_length, hlen, hfin, hPoutH,
        hPbpr]
      ring
    refine ⟨rfl, hlength, ?_, ?_, convLive0_erase_all _ _⟩
    · show s'.out.take (54 + 4 * getColorsUsed bpp) = writeBmpHeader od.1 od.2 bpp
      rw [hout, hs0out, hPoutW, hPoutH, ← writeBmpHeader_length od.1 od.2 bpp,
        List.take_left]
    · show decodeLE32 s'.out 2
        = 54 + 4 * getColorsUsed bpp + getBytesPerRow od.1 bpp * od.2
      rw [hout, hs0out, decodeLE32_append _ _ _ (by rw [writeBmpHeader_length]; omega),
        hPoutW, hPoutH]
      apply writeBmpHeader_fileSize
      have hb := getBytesPerRow_le od.1 bpp
      have hod2le : od.2 ≤ 3072 := by omega
      nlinarith
  · -- direct 1:1 path
    have hscF : needsScaling info.m_width info.m_height tW tH = false := by
      revert hsc
      cases needsScaling info.m_width info.m_height tW tH <;> simp
    have hPns : P.needsScaling = false := by rw [hP]; simp only [convParams]; exact hscF
    have hodeq : od = (info.m_width, info.m_height) := by
      rw [hod]
      simp only [outputDims, hscF, Bool.false_eq_true, if_false]
    obtain ⟨s', r, hrun, hout, hlen⟩ :=
      runLoop_noscale P info mcus hPns hdec info.m_MCUSPerCol s0
    have hrunL : runMcuLoop P info mcus s0 = .ok s' := by
      simp only [runMcuLoop]; exact hrun
    rw [hred, hrunL]
    rw [hminh, hPsrcH] at hlen
    have hlength : s'.out.length = 54 + 4 * getColorsUsed bpp
        + getBytesPerRow od.1 bpp * od.2 := by
      rw [hout, hs0out, List.length_append, writeBmpHeader_length, hlen, hPbpr, hodeq]
      ring
    refine ⟨rfl, hlength, ?_, ?_, convLive0_erase_all _ _⟩
    · show s'.out.take (54 + 4 * getColorsUsed bpp) = writeBmpHeader od.1 od.2 bpp
      rw [hout, hs0out, hPoutW, hPoutH, ← writeBmpHeader_length od.1 od.2 bpp,
        List.take_left]
    · show decodeLE32 s'.out 2
        = 54 + 4 * getColorsUsed bpp + getBytesPerRow od.1 bpp * od.2
      rw [hout, hs0out, decodeLE32_append _ _ _ (by rw [writeBmpHeader_length]; omega),
        hPoutW, hPoutH]
      apply writeBmpHeader_fileSize
      have hb := getBytesPerRow_le od.1 bpp
      have hod1le : od.1 ≤ 2048 := by rw [hodeq]; exact hw
      have hod2le : od.2 ≤ 3072 := by rw [hodeq]; exact hh
      nlinarith

/-- With depth supported, decode init succeeded, dimensions within the safety
ceilings and both allocations succeeding, the conversion reduces to the MCU
loop: header already written, failure keeping whatever was emitted. -/
theorem jpegRun_eq (info : ImageInfo) (mcus : ℕ → MCUDecode) (preW preH bpp tW tH : ℕ)
    (hbpp : bpp = 1 ∨ bpp = 2 ∨ bpp = 8)
    (hw : info.m_width ≤ 2048) (hh : info.m_height ≤ 3072)
    (hmcu : info.m_width * info.m_MCUHeight ≤ 65536) :
    jpegFileToBmpStream info 0 mcus preW preH true true bpp tW tH =
      (match runMcuLoop (convParams info preW preH bpp tW tH) info mcus
          (convInit info preW preH bpp tW tH) with
       | .error s =>
         ⟨false, s.out,
           ((convLive0 (convParams info preW preH bpp tW tH).indexed
             (convParams info preW preH bpp tW tH).needsScaling).erase
               .mcuRowBuffer).erase .rowBuffer⟩
       | .ok s =>
         ⟨true, s.out,
           ((((((convLive0 (convParams info preW preH bpp tW tH).indexed
             (convParams info preW preH bpp tW tH).needsScaling).erase .rowAccum).erase
             .rowCnt).erase .atkinsonDitherer).erase .fsDitherer).erase
             .mcuRowBuffer).erase .rowBuffer⟩) := by
  simp only [jpegFileToBmpStream, if_neg (not_not_intro hbpp)]
  rw [if_neg (show ¬ (0 : ℕ) ≠ 0 by omega)]
  rw [if_neg (show ¬ (info.m_width > 2048 ∨ info.m_height > 3072) by omega)]
  simp only [Bool.not_true, Bool.false_eq_true, if_false]
  rw [if_neg (show ¬ info.m_width * info.m_MCUHeight > 65536 by omega)]

/-- When the very first MCU decode fails, the MCU loop aborts with the state
it entered with. -/
theorem runMcuLoop_first_fail (P : ConvParams) (info : ImageInfo) (mcus : ℕ → MCUDecode)
    (s0 : LoopState) (hR : 1 ≤ info.m_MCUSPerRow) (hC : 1 ≤ info.m_MCUSPerCol)
    (h0 : (mcus 0).status ≠ 0) :
    runMcuLoop P info mcus s0 = Except.error s0 := by
  have hdec0 : decodeMcuRow info mcus 0 = none := decodeMcuRow_zero_none info mcus hR h0
  simp only [runMcuLoop]
  obtain ⟨n, hn⟩ : ∃ n, info.m_MCUSPerCol = n + 1 := ⟨info.m_MCUSPerCol - 1, by omega⟩
  rw [hn, List.range_succ_eq_map, List.foldl_cons]
  have hfirst : (Except.ok s0 >>= stepMcuY P info mcus 0) = Except.error s0 := by
    show stepMcuY P info mcus 0 s0 = _
    simp only [stepMcuY, hdec0]
  rw [hfirst]
  exact mcuLoop_error_absorb P info mcus _ s0

/-- C2 counterexample: a JPEG whose headers parse (decode init succeeds) but
whose first MCU decode fails — a file truncated before the first MCU — leaves
the conversion returning failure with the 70 header-and-palette bytes already
written to the sink, so bytes HAVE been written. -/
theorem C2_counterexample :
    (jpegFileToBmpStream (ImageInfo.mk 304 456 1 38 57 8 8) 0
        (fun _ => MCUDecode.mk 8 (fun _ => 0) (fun _ => 0) (fun _ => 0))
        0 0 true true 2 480 800).ok = false ∧
    ¬ (jpegFileToBmpStream (ImageInfo.mk 304 456 1 38 57 8 8) 0
        (fun _ => MCUDecode.mk 8 (fun _ => 0) (fun _ => 0) (fun _ => 0))
        0 0 true true 2 480 800).out = [] ∧
    (jpegFileToBmpStream (ImageInfo.mk 304 456 1 38 57 8 8) 0
        (fun _ => MCUDecode.mk 8 (fun _ => 0) (fun _ => 0) (fun _ => 0))
        0 0 true true 2 480 800).out.length = 70 := by
  refine ⟨by decide, by decide, by decide⟩

/-- C2 (amended): for a JPEG truncated before the first MCU — decode init
succeeds but the first MCU decode fails — the conversion returns failure, yet
the 54 + paletteBytes header/palette bytes have already been written to the
sink (they are exactly the output), and no pixel-row bytes follow; the
operation is not all-or-nothing at the byte level. -/
theorem C2_failure_after_header (info : ImageInfo) (mcus : ℕ → MCUDecode)
    (preW preH bpp tW tH : ℕ)
    (hbpp : bpp = 1 ∨ bpp = 2 ∨ bpp = 8)
    (hw : info.m_width ≤ 2048) (hh : info.m_height ≤ 3072)
    (hmcu : info.m_width * info.m_MCUHeight ≤ 65536)
    (hR : 1 ≤ info.m_MCUSPerRow) (hC : 1 ≤ info.m_MCUSPerCol)
    (h0 : (mcus 0).status ≠ 0) :
    (jpegFileToBmpStream info 0 mcus preW preH true true bpp tW tH).ok = false ∧
    (jpegFileToBmpStream info 0 mcus preW preH true true bpp tW tH).out
      = writeBmpHeader (outputDims info.m_width info.m_height preW preH tW tH).1
          (outputDims info.m_width info.m_height preW preH tW tH).2 bpp ∧
    (jpegFileToBmpStream info 0 mcus preW preH true true bpp tW tH).out.length
      = 54 + 4 * getColorsUsed bpp := by
  rw [jpegRun_eq info mcus preW preH bpp tW tH hbpp hw hh hmcu,
    runMcuLoop_first_fail _ info mcus _ hR hC h0]
  have hs0out : (convInit info preW preH bpp tW tH).out
      = writeBmpHeader (outputDims info.m_width info.m_height preW preH tW tH).1
          (outputDims info.m_width info.m_height preW preH tW tH).2 bpp := by
    simp only [convInit, convParams]
  refine ⟨rfl, hs0out, ?_⟩
  show (convInit info preW preH bpp tW tH).out.length = 54 + 4 * getColorsUsed bpp
  rw [hs0out, writeBmpHeader_length]

theorem C2_failure_after_header_witness :
    (jpegFileToBmpStream (ImageInfo.mk 304 456 1 38 57 8 8) 0
        (fun _ => MCUDecode.mk 8 (fun _ => 0) (fun _ => 0) (fun _ => 0))
        0 0 true true 2 480 800).ok = false ∧
    (jpegFileToBmpStream (ImageInfo.mk 304 456 1 38 57 8 8) 0
        (fun _ => MCUDecode.mk 8 (fun _ => 0) (fun _ => 0) (fun _ => 0))
        0 0 true true 2 480 800).out
      = writeBmpHeader (outputDims 304 456 0 0 480 800).1 (outputDims 304 456 0 0 480 800).2 2 ∧
    (jpegFileToBmpStream (ImageInfo.mk 304 456 1 38 57 8 8) 0
        (fun _ => MCUDecode.mk 8 (fun _ => 0) (fun _ => 0) (fun _ => 0))
        0 0 true true 2 480 800).out.length = 54 + 4 * getColorsUsed 2 :=
  C2_failure_after_header (ImageInfo.mk 304 456 1 38 57 8 8)
    (fun _ => MCUDecode.mk 8 (fun _ => 0) (fun _ => 0) (fun _ => 0)) 0 0 2 480 800
    (by decide) (by decide) (by decide) (by decide) (by decide) (by decide) (by decide)

/-- C3: the claim is right and the code is wrong.  On the MCU-decode-failure
exit path (lines 583-585) the code frees only `mcuRowBuffer` and `rowBuffer`;
with an indexed depth the `new`-allocated Atkinson ditherer (and, when
scaling, the `rowAccum`/`rowCount` arrays) are still in the ledger when the
function returns failure — a leak. -/
theorem C3_mcu_failure_leaks_ditherer (info : ImageInfo) (mcus : ℕ → MCUDecode)
    (preW preH bpp tW tH : ℕ)
    (hbpp : bpp = 1 ∨ bpp = 2)
    (hw : info.m_width ≤ 2048) (hh : info.m_height ≤ 3072)
    (hmcu : info.m_width * info.m_MCUHeight ≤ 65536)
    (hR : 1 ≤ info.m_MCUSPerRow) (hC : 1 ≤ info.m_MCUSPerCol)
    (h0 : (mcus 0).status ≠ 0) :
    (jpegFileToBmpStream info 0 mcus preW preH true true bpp tW tH).ok = false ∧
    AllocTag.atkinsonDitherer
      ∈ (jpegFileToBmpStream info 0 mcus preW preH true true bpp tW tH).live := by
  rw [jpegRun_eq info mcus preW preH bpp tW tH (by omega) hw hh hmcu,
    runMcuLoop_first_fail _ info mcus _ hR hC h0]
  have hindexed : (convParams info preW preH bpp tW tH).indexed = true := by
    rcases hbpp with h | h <;> subst h <;> rfl
  refine ⟨rfl, ?_⟩
  show AllocTag.atkinsonDitherer ∈
    ((convLive0 (convParams info preW preH bpp tW tH).indexed
      (convParams info preW preH bpp tW tH).needsScaling).erase .mcuRowBuffer).erase .rowBuffer
  rw [hindexed]
  cases (convParams info preW preH bpp tW tH).needsScaling <;> decide

theorem C3_mcu_failure_leaks_ditherer_witness :
    (jpegFileToBmpStream (ImageInfo.mk 304 456 1 38 57 8 8) 0
        (fun _ => MCUDecode.mk 8 (fun _ => 0) (fun _ => 0) (fun _ => 0))
        0 0 true true 2 480 800).ok = false ∧
    AllocTag.atkinsonDitherer
      ∈ (jpegFileToBmpStream (ImageInfo.mk 304 456 1 38 57 8 8) 0
          (fun _ => MCUDecode.mk 8 (fun _ => 0) (fun _ => 0) (fun _ => 0))
          0 0 true true 2 480 800).live :=
  C3_mcu_failure_leaks_ditherer (ImageInfo.mk 304 456 1 38 57 8 8)
    (fun _ => MCUDecode.mk 8 (fun _ => 0) (fun _ => 0) (fun _ => 0)) 0 0 2 480 800
    (by decide) (by decide) (by decide) (by decide) (by decide) (by decide) (by decide)

theorem C1_total_bytes_and_file_size_witness :
    (jpegFileToBmpStream (ImageInfo.mk 16 16 1 2 2 8 8) 0
        (fun _ => MCUDecode.mk 0 (fun _ => 128) (fun _ => 128) (fun _ => 128))
        8 8 true true 2 8 8).ok = true ∧
    (jpegFileToBmpStream (ImageInfo.mk 16 16 1 2 2 8 8) 0
        (fun _ => MCUDecode.mk 0 (fun _ => 128) (fun _ => 128) (fun _ => 128))
        8 8 true true 2 8 8).out.length = 102 := by
  have h := C1_total_bytes_and_file_size (ImageInfo.mk 16 16 1 2 2 8 8)
    (fun _ => MCUDecode.mk 0 (fun _ => 128) (fun _ => 128) (fun _ => 128)) 8 8 2 8 8
    (by decide) (fun _ => rfl) (by decide) (by decide) (by decide) (by decide) (by decide)
  refine ⟨h.1, ?_⟩
  have h2 : 54 + 4 * getColorsUsed 2
      + getBytesPerRow (outputDims 16 16 8 8 8 8).1 2 * (outputDims 16 16 8 8 8 8).2
      = 102 := by decide
  exact h.2.1.trans h2
